import Mathlib

/-!
Shallow embedding of the markdown-table repair engine from
`fix_markdown_tables_tournament.py` (classes `Claude37_round_1`,
`Claude37_round_3`, `Claude37_round_5`, `Grok3_round_1`, `Grok3_round_5`,
`O1_pro_round_5`), together with theorems settling the specification
claims about these functions.

Strings are embedded as `List Char` (one Python `str` = one `Str`), and
Python string primitives (`strip`, `rstrip`, `split`, `splitlines`,
`join`, membership tests, the separator-cell regular expression
`:?-«3,»:?` and so on) are given explicit executable definitions below.
Each Python class becomes a Lean namespace whose definitions mirror the
corresponding Python functions line by line.
-/

/-- A Python string, embedded as its list of characters. -/
abbrev Str := List Char

/-- ASCII whitespace, as recognised by Python `str.strip` / `\s`. -/
def pyIsSpace (c : Char) : Bool :=
  c = ' ' || c = '\t' || c = '\n' || c = '\r' || c = '\x0b' || c = '\x0c'

/-- Characters on which Python `str.splitlines` breaks lines. -/
def isLineBreak (c : Char) : Bool :=
  c = '\n' || c = '\r' || c = '\x0b' || c = '\x0c' ||
  c = '\x1c' || c = '\x1d' || c = '\x1e' || c = '\x85' ||
  c = '\u2028' || c = '\u2029'

/-- Python `s.lstrip()`. -/
def pyLstrip (s : Str) : Str := s.dropWhile pyIsSpace

/-- Python `s.rstrip()`. -/
def pyRstrip (s : Str) : Str := (s.reverse.dropWhile pyIsSpace).reverse

/-- Python `s.strip()`. -/
def pyStrip (s : Str) : Str := pyRstrip (pyLstrip s)

/-- Python `'|' in line`. -/
def hasPipe (l : Str) : Bool := l.contains '|'

/-- Worker for `pySplitlines`: `cur` is the reversed current line; a
`\r\n` pair counts as a single line break. -/
def pySplitlinesGo (cur : Str) : Str → List Str
  | [] => [cur.reverse]
  | c :: rest =>
      match rest with
      | [] =>
          if isLineBreak c then [cur.reverse]
          else pySplitlinesGo (c :: cur) []
      | d :: rest2 =>
          if c = '\r' && d = '\n' then
            cur.reverse :: (if rest2.isEmpty then [] else pySplitlinesGo [] rest2)
          else if isLineBreak c then
            cur.reverse :: pySplitlinesGo [] (d :: rest2)
          else pySplitlinesGo (c :: cur) (d :: rest2)

/-- Python `s.splitlines()`. -/
def pySplitlines (s : Str) : List Str :=
  match s with
  | [] => []
  | _ => pySplitlinesGo [] s

/-- Python `'\n'.join(lines)`. -/
def joinLines (ls : List Str) : Str := List.intercalate ['\n'] ls

/-- Python `' '.join(cells)`. -/
def joinSpace (cells : List Str) : Str := List.intercalate [' '] cells

/-- Does `hay` begin with the pattern `pat`? -/
def beginsWith : Str → Str → Bool
  | _, [] => true
  | [], _ :: _ => false
  | h :: hs, p :: ps => h = p && beginsWith hs ps

/-- Python `pat in hay` for strings: contiguous-substring test. -/
def containsSeq : Str → Str → Bool
  | [], pat => beginsWith [] pat
  | hay@(_ :: t), pat => beginsWith hay pat || containsSeq t pat

/-- Core of `re.fullmatch(":?-«3,»:?", s)` on an already-stripped string:
an optional colon, at least three hyphens, an optional colon. -/
def sepCellCore (cs : Str) : Bool :=
  let cs1 := if cs.head? = some ':' then cs.tail else cs
  let ds := cs1.takeWhile (fun c => c = '-')
  let rest := cs1.drop ds.length
  decide (3 ≤ ds.length) && (rest.isEmpty || rest = [':'])

/-- The separator-cell pattern as a declarative proposition:
the stripped cell is an optional colon, then `n ≥ 3` hyphens, then an
optional colon.  This follows the words of the specification and is
proved equivalent to the executable `sepCellCore` below. -/
def sepPattern (cell : Str) : Prop :=
  ∃ (l r : Bool) (n : Nat), 3 ≤ n ∧
    pyStrip cell = (if l then [':'] else []) ++
      List.replicate n '-' ++ (if r then [':'] else [])

/-- The canonical separator cell `---`. -/
def dashes3 : Str := ['-', '-', '-']

namespace Claude37_round_5

/-- Python `Claude37_round_5.parse_row`. -/
def parse_row (line : Str) : List Str :=
  if line.isEmpty || !hasPipe line then []
  else
    let s := pyStrip line
    let hasLead := s.head? = some '|'
    let hasTail := s.getLast? = some '|'
    let s1 := if hasLead then s.tail else s
    let s2 := if hasTail then s1.dropLast else s1
    (s2.splitOn '|').map pyStrip

/-- Python `Claude37_round_5.is_separator_cell`. -/
def is_separator_cell (cell : Str) : Bool := sepCellCore (pyStrip cell)

/-- Python `Claude37_round_5.is_separator_row`. -/
def is_separator_row (cells : List Str) : Bool :=
  if cells.isEmpty then false
  else (cells.filter (fun c => !(pyStrip c).isEmpty)).all is_separator_cell

/-- Python `Claude37_round_5.is_valid_table`. -/
def is_valid_table (lines : List Str) : Bool :=
  if lines.length < 2 then false
  else
    let rows := (lines.filter hasPipe).map parse_row
    if rows.length < 2 then false
    else
      match rows with
      | r0 :: r1 :: _ =>
          is_separator_row r1 && rows.all (fun r => r.length == r0.length)
      | _ => false

/-- Worker for `merge_continuation_lines`; `current` is the pending row. -/
def mergeGo (current : Option Str) : List Str → List Str
  | [] =>
      match current with
      | some c => [c]
      | none => []
  | line :: rest =>
      if hasPipe line then
        (match current with | some c => [c] | none => []) ++
          mergeGo (some (pyRstrip line)) rest
      else if !(pyStrip line).isEmpty then
        match current with
        | some c => mergeGo (some (c ++ ' ' :: pyStrip line)) rest
        | none => mergeGo (some (pyRstrip line)) rest
      else
        (match current with | some c => [c] | none => []) ++
          (if !(pyStrip line).isEmpty then [line] else []) ++ mergeGo none rest

/-- Python `Claude37_round_5.merge_continuation_lines`. -/
def merge_continuation_lines (lines : List Str) : List Str :=
  mergeGo none lines

/-- Python `Claude37_round_5.detect_table_style`. -/
def detect_table_style (line : Str) : Bool × Bool :=
  let s := pyStrip line
  (s.head? == some '|', s.getLast? == some '|')

/-- Python `Claude37_round_5.detect_separator_pattern`. -/
def detect_separator_pattern (parsed_rows : List (List Str)) : Bool :=
  if parsed_rows.length < 3 then false
  else
    let sep_indices :=
      (parsed_rows.enum.filter (fun p => is_separator_row p.2)).map Prod.fst
    if sep_indices.length ≤ 1 then false
    else
      let odd_sep_count := (sep_indices.filter (fun i => i % 2 == 1)).length
      let total_odds := (parsed_rows.length - 1) / 2
      decide (total_odds ≤ 2 * odd_sep_count)

/-- Python `Claude37_round_5.normalize_row`. -/
def normalize_row (row : List Str) (target_cols : Nat) : List Str :=
  if row.length < target_cols then
    row ++ List.replicate (target_cols - row.length) []
  else if target_cols < row.length then
    if 1 < target_cols then
      row.take (target_cols - 1) ++ [joinSpace (row.drop (target_cols - 1))]
    else [joinSpace row]
  else row

/-- Python `Claude37_round_5.rebuild_row`. -/
def rebuild_row (cells : List Str) (style : Bool × Bool) : Str :=
  if cells.isEmpty then []
  else
    let r := List.intercalate [' ', '|', ' '] cells
    let r1 := if style.1 then '|' :: ' ' :: r else r
    if style.2 then r1 ++ [' ', '|'] else r1

/-- The `while` loop of `fix_table_block` in the repeated-separator case:
emit each surviving data row followed by a fresh separator line. -/
def emitRepeated (max_cols : Nat) (style : Bool × Bool) :
    List (List Str) → List Str
  | [] => []
  | r :: rs =>
      if is_separator_row r then emitRepeated max_cols style rs
      else
        rebuild_row (normalize_row r max_cols) style ::
          rebuild_row (List.replicate max_cols dashes3) style ::
            emitRepeated max_cols style rs

/-- Python `Claude37_round_5.fix_table_block`. -/
def fix_table_block (merged_lines : List Str) : List Str :=
  match merged_lines with
  | [] => []
  | m0 :: _ =>
    let style := detect_table_style m0
    let parsed_rows := (merged_lines.filter hasPipe).map parse_row
    let max_cols := (parsed_rows.map List.length).foldl max 0
    let has_separators_after_rows := detect_separator_pattern parsed_rows
    match parsed_rows with
    | [] => []
    | p0 :: ps =>
      let header := rebuild_row (normalize_row p0 max_cols) style
      let sepLine := rebuild_row (List.replicate max_cols dashes3) style
      if has_separators_after_rows then
        header :: sepLine :: emitRepeated max_cols style ps
      else
        header :: sepLine ::
          ps.filterMap (fun r =>
            if is_separator_row r then none
            else some (rebuild_row (normalize_row r max_cols) style))

/-- Python `Claude37_round_5.process_table_block`. -/
def process_table_block (block_lines : List Str) : List Str :=
  let merged := merge_continuation_lines block_lines
  if merged.length < 2 || !(merged.any hasPipe) then block_lines
  else if is_valid_table merged then block_lines
  else fix_table_block merged

/-- The segmentation loop of `fix_invalid_markdown_tables`. -/
def fixGo (table_block : List Str) (in_table : Bool) :
    List Str → List Str
  | [] => if !table_block.isEmpty then process_table_block table_block else []
  | line :: ls =>
      if hasPipe line then fixGo (table_block ++ [line]) true ls
      else if in_table && !(pyStrip line).isEmpty then
        fixGo (table_block ++ [line]) in_table ls
      else if in_table then
        process_table_block table_block ++ line :: fixGo [] false ls
      else line :: fixGo table_block in_table ls

/-- Python `Claude37_round_5.fix_invalid_markdown_tables`, on `Str`. -/
def fixChars (markdown_text : Str) : Str :=
  joinLines (fixGo [] false (pySplitlines markdown_text))

/-- Python `Claude37_round_5.fix_invalid_markdown_tables`. -/
def fix_invalid_markdown_tables (markdown_text : String) : String :=
  String.mk (fixChars markdown_text.data)

end Claude37_round_5

namespace Grok3_round_5

/-- Python `Grok3_round_5.parse_row` (the two pipe checks are sequential:
the trailing-pipe test runs on the string after the leading pipe was cut). -/
def parse_row (line : Str) : List Str :=
  let s := pyStrip line
  let s1 := if s.head? = some '|' then s.tail else s
  let s2 := if s1.getLast? = some '|' then s1.dropLast else s1
  (s2.splitOn '|').map pyStrip

/-- Python `Grok3_round_5.is_separator_cell`. -/
def is_separator_cell (cell : Str) : Bool := sepCellCore (pyStrip cell)

/-- Python `Grok3_round_5.is_separator_row`. -/
def is_separator_row (cells : List Str) : Bool :=
  (cells.filter (fun c => !(pyStrip c).isEmpty)).all is_separator_cell

/-- Python `Grok3_round_5.is_valid_table`. -/
def is_valid_table (lines : List Str) : Bool :=
  if lines.length < 2 then false
  else
    let rows := (lines.filter hasPipe).map parse_row
    if rows.length < 2 then false
    else
      match rows with
      | r0 :: r1 :: _ =>
          is_separator_row r1 && rows.all (fun r => r.length == r0.length)
      | _ => false

/-- Worker for `merge_continuation_lines`. -/
def mergeGo (current : Option Str) : List Str → List Str
  | [] =>
      match current with
      | some c => [c]
      | none => []
  | line :: rest =>
      if hasPipe line then
        (match current with | some c => [c] | none => []) ++
          mergeGo (some (pyRstrip line)) rest
      else
        match current with
        | some c =>
            if !(pyStrip line).isEmpty then
              mergeGo (some (c ++ ' ' :: pyStrip line)) rest
            else [c] ++ line :: mergeGo none rest
        | none => line :: mergeGo none rest

/-- Python `Grok3_round_5.merge_continuation_lines`. -/
def merge_continuation_lines (lines : List Str) : List Str :=
  mergeGo none lines

/-- Python `Grok3_round_5.rebuild_row`. -/
def rebuild_row (cells : List Str) (style : Bool × Bool) : Str :=
  let s := List.intercalate [' ', '|', ' '] cells
  let s1 := if style.1 then '|' :: ' ' :: s else s
  if style.2 then s1 ++ [' ', '|'] else s1

/-- Python `Grok3_round_5.normalize_row`. -/
def normalize_row (row : List Str) (target_cols : Nat) : List Str :=
  if row.length < target_cols then
    row ++ List.replicate (target_cols - row.length) []
  else if target_cols < row.length then
    row.take (target_cols - 1) ++ [joinSpace (row.drop (target_cols - 1))]
  else row

/-- The `while` loop of `fix_table_block` in the repeated-separator case. -/
def emitRepeated (max_cols : Nat) : List (List Str) → List (List Str)
  | [] => []
  | r :: rs =>
      if is_separator_row r then emitRepeated max_cols rs
      else r :: List.replicate max_cols dashes3 :: emitRepeated max_cols rs

/-- Python `Grok3_round_5.fix_table_block`. -/
def fix_table_block (merged_lines : List Str) : List Str :=
  match merged_lines with
  | [] => merged_lines
  | first_line :: _ =>
    let style :=
      ((pyStrip first_line).head? == some '|',
       (pyStrip first_line).getLast? == some '|')
    let parsed_rows := (merged_lines.filter hasPipe).map parse_row
    match parsed_rows with
    | [] => merged_lines
    | _ =>
      let max_cols := (parsed_rows.map List.length).foldl max 0
      let parsed2 := parsed_rows.map (fun r => normalize_row r max_cols)
      let sep_flags := parsed2.map is_separator_row
      let odd_sep_count :=
        ((List.range sep_flags.length).filter
          (fun i => i % 2 == 1 && sep_flags.getD i false)).length
      let total_odds := (parsed2.length - 1) / 2 + 1
      let repeated_sep :=
        decide (total_odds ≤ 2 * odd_sep_count) && decide (1 < odd_sep_count)
      let fixed :=
        match parsed2 with
        | [] => []
        | p0 :: ps =>
          if repeated_sep then
            p0 :: List.replicate max_cols dashes3 :: emitRepeated max_cols ps
          else
            p0 :: List.replicate max_cols dashes3 ::
              ps.filter (fun r => !is_separator_row r)
      fixed.map (fun r => rebuild_row r style)

/-- Python `Grok3_round_5.process_table_block`. -/
def process_table_block (block_lines : List Str) : List Str :=
  let merged := merge_continuation_lines block_lines
  if merged.length < 2 || !(merged.any hasPipe) then block_lines
  else if is_valid_table merged then block_lines
  else fix_table_block merged

/-- The segmentation loop of `fix_invalid_markdown_tables`. -/
def fixGo (table_block : List Str) (in_table : Bool) :
    List Str → List Str
  | [] => if !table_block.isEmpty then process_table_block table_block else []
  | line :: ls =>
      if hasPipe line then fixGo (table_block ++ [line]) true ls
      else if in_table then
        process_table_block table_block ++ line :: fixGo [] false ls
      else line :: fixGo table_block in_table ls

/-- Python `Grok3_round_5.fix_invalid_markdown_tables`, on `Str`. -/
def fixChars (markdown_text : Str) : Str :=
  joinLines (fixGo [] false (pySplitlines markdown_text))

/-- Python `Grok3_round_5.fix_invalid_markdown_tables`. -/
def fix_invalid_markdown_tables (markdown_text : String) : String :=
  String.mk (fixChars markdown_text.data)

end Grok3_round_5

namespace O1_pro_round_5

/-- Python `O1_pro_round_5._parse_row`. -/
def _parse_row (line : Str) : List Str :=
  let s := pyStrip line
  let has_lead := s.head? = some '|'
  let has_tail := s.getLast? = some '|'
  let s1 := if has_lead then s.tail else s
  let s2 := if has_tail then s1.dropLast else s1
  (s2.splitOn '|').map pyStrip

/-- Python `O1_pro_round_5._is_separator_cell`. -/
def _is_separator_cell (cell : Str) : Bool := sepCellCore (pyStrip cell)

/-- Python `O1_pro_round_5._is_separator_row`. -/
def _is_separator_row (cells : List Str) : Bool :=
  (cells.filter (fun c => !(pyStrip c).isEmpty)).all _is_separator_cell

/-- Python `O1_pro_round_5._is_valid_table`. -/
def _is_valid_table (lines : List Str) : Bool :=
  if lines.length < 2 then false
  else
    let rows := (lines.filter hasPipe).map _parse_row
    if rows.length < 2 then false
    else
      match rows with
      | r0 :: r1 :: _ =>
          _is_separator_row r1 && rows.all (fun r => r.length == r0.length)
      | _ => false

/-- Worker for `_merge_continuation_lines` (no `rstrip` in this variant). -/
def mergeGo (current : Option Str) : List Str → List Str
  | [] =>
      match current with
      | some c => [c]
      | none => []
  | ln :: rest =>
      if hasPipe ln then
        (match current with | some c => [c] | none => []) ++
          mergeGo (some ln) rest
      else if !(pyStrip ln).isEmpty then
        match current with
        | some c => mergeGo (some (c ++ ' ' :: pyStrip ln)) rest
        | none => mergeGo (some ln) rest
      else
        (match current with | some c => [c] | none => []) ++
          ln :: mergeGo none rest

/-- Python `O1_pro_round_5._merge_continuation_lines`. -/
def _merge_continuation_lines (lines : List Str) : List Str :=
  mergeGo none lines

/-- Python `O1_pro_round_5._detect_repeated_separators`: the loop
`for i in range(1, len(rows), 2)` counts all odd indices below
`len(rows)` and, among them, those whose row is a separator row;
the result is `odd_sep_count >= total_odd / 2.0`. -/
def _detect_repeated_separators (rows : List (List Str)) : Bool :=
  if rows.length < 3 then false
  else
    let odds := (List.range rows.length).filter (fun i => i % 2 == 1)
    let total_odd := odds.length
    let odd_sep_count :=
      (odds.filter (fun i => _is_separator_row (rows.getD i []))).length
    decide (total_odd ≤ 2 * odd_sep_count)

/-- Python `O1_pro_round_5._normalize_row`. -/
def _normalize_row (row : List Str) (target_cols : Nat) : List Str :=
  if row.length < target_cols then
    row ++ List.replicate (target_cols - row.length) []
  else if target_cols < row.length then
    row.take (target_cols - 1) ++ [joinSpace (row.drop (target_cols - 1))]
  else row

/-- Python `O1_pro_round_5._rebuild_row`. -/
def _rebuild_row (cells : List Str) (style : Bool × Bool) : Str :=
  let row_str := List.intercalate [' ', '|', ' '] cells
  let r1 := if style.1 then '|' :: ' ' :: row_str else row_str
  if style.2 then r1 ++ [' ', '|'] else r1

/-- The `while` loop of `_fix_invalid_table` in the repeated case. -/
def emitRepeated (max_cols : Nat) (style : Bool × Bool) :
    List (List Str) → List Str
  | [] => []
  | r :: rs =>
      if _is_separator_row r then emitRepeated max_cols style rs
      else
        _rebuild_row r style ::
          _rebuild_row (List.replicate max_cols dashes3) style ::
            emitRepeated max_cols style rs

/-- Python `O1_pro_round_5._fix_invalid_table`. -/
def _fix_invalid_table (lines : List Str) : List Str :=
  match lines with
  | [] => lines
  | first_line :: _ =>
    let parsed_rows := (lines.filter hasPipe).map _parse_row
    match parsed_rows with
    | [] => lines
    | _ =>
      let style :=
        ((pyStrip first_line).head? == some '|',
         (pyStrip first_line).getLast? == some '|')
      let max_cols := (parsed_rows.map List.length).foldl max 0
      let repeated_sep := _detect_repeated_separators parsed_rows
      let parsed2 := parsed_rows.map (fun r => _normalize_row r max_cols)
      match parsed2 with
      | [] => lines
      | p0 :: ps =>
        _rebuild_row p0 style ::
          _rebuild_row (List.replicate max_cols dashes3) style ::
            (if repeated_sep then emitRepeated max_cols style ps
             else
               ps.filterMap (fun r =>
                 if _is_separator_row r then none
                 else some (_rebuild_row r style)))

/-- Python `O1_pro_round_5._process_table_block`. -/
def _process_table_block (block_lines : List Str) : List Str :=
  let merged := _merge_continuation_lines block_lines
  if _is_valid_table merged then block_lines
  else _fix_invalid_table merged

/-- The segmentation loop of `fix_invalid_markdown_tables`. -/
def fixGo (table_block : List Str) (in_table : Bool) :
    List Str → List Str
  | [] => if !table_block.isEmpty then _process_table_block table_block else []
  | line :: ls =>
      if hasPipe line then fixGo (table_block ++ [line]) true ls
      else if in_table then
        _process_table_block table_block ++ line :: fixGo [] false ls
      else line :: fixGo table_block in_table ls

/-- Python `O1_pro_round_5.fix_invalid_markdown_tables`, on `Str`. -/
def fixChars (markdown_text : Str) : Str :=
  joinLines (fixGo [] false (pySplitlines markdown_text))

/-- Python `O1_pro_round_5.fix_invalid_markdown_tables`. -/
def fix_invalid_markdown_tables (markdown_text : String) : String :=
  String.mk (fixChars markdown_text.data)

end O1_pro_round_5

namespace Grok3_round_1

/-- Python `Grok3_round_1.split_row`. -/
def split_row (row : Str) : List Str :=
  (row.splitOn '|').map pyStrip

/-- Grouping of lines into blocks separated by blank lines
(the accumulation loop of `fix_invalid_markdown_tables`). -/
def toBlocksGo (current_block : List Str) : List Str → List (List Str)
  | [] => if current_block.isEmpty then [] else [current_block]
  | line :: ls =>
      if !(pyStrip line).isEmpty then toBlocksGo (current_block ++ [line]) ls
      else if current_block.isEmpty then toBlocksGo [] ls
      else current_block :: toBlocksGo [] ls

/-- The blank-separated blocks of the document. -/
def toBlocks (lines : List Str) : List (List Str) := toBlocksGo [] lines

/-- The table-reconstruction branch of `fix_invalid_markdown_tables`
(at least three pipe lines in the block). -/
def fixBlock (block : List Str) : List Str :=
  match block with
  | [] => []
  | b0 :: rest =>
    let cell_lists := block.map split_row
    let num_columns := (cell_lists.map List.length).foldl max 0
    let pad := fun (cells : List Str) =>
      if cells.length < num_columns then
        cells ++ List.replicate (num_columns - cells.length) []
      else cells
    let serialize := fun (cells : List Str) =>
      '|' :: ' ' :: List.intercalate [' ', '|', ' '] cells ++ [' ', '|']
    let header := serialize (pad (split_row b0))
    let separator := serialize (List.replicate num_columns dashes3)
    header :: separator :: rest.map (fun line => serialize (pad (split_row line)))

/-- Per-block processing: blocks with fewer than three pipe lines are
left unchanged, others are rebuilt. -/
def processBlock (block : List Str) : List Str :=
  if (block.filter hasPipe).length < 3 then block
  else fixBlock block

/-- Python `Grok3_round_1.fix_invalid_markdown_tables`, on `Str`:
blocks are processed and re-joined with one blank line between them. -/
def fixChars (markdown_text : Str) : Str :=
  List.intercalate ['\n', '\n']
    ((toBlocks (pySplitlines markdown_text)).map (fun b => joinLines (processBlock b)))

/-- Python `Grok3_round_1.fix_invalid_markdown_tables`. -/
def fix_invalid_markdown_tables (markdown_text : String) : String :=
  String.mk (fixChars markdown_text.data)

end Grok3_round_1

namespace Claude37_round_3

/-- Python `Claude37_round_3.parse_table_row` (splits the raw line, but
tests leading/trailing pipes on the stripped line). -/
def parse_table_row (line : Str) : List Str :=
  let parts := line.splitOn '|'
  let s := pyStrip line
  let parts1 := if s.head? = some '|' then parts.tail else parts
  let parts2 := if s.getLast? = some '|' then parts1.dropLast else parts1
  parts2.map pyStrip

/-- Python `Claude37_round_3.is_separator_row`. -/
def is_separator_row (cells : List Str) : Bool :=
  if cells.isEmpty then false
  else
    (cells.filter (fun c => !(pyStrip c).isEmpty)).all
      (fun c => sepCellCore (pyStrip c))

/-- One step of `Claude37_round_3.merge_continuation_lines`. -/
def mergeStep (merged : List Str) (line : Str) : List Str :=
  if hasPipe line then merged ++ [line]
  else
    match merged.getLast? with
    | some last =>
        if !(pyStrip line).isEmpty then
          merged.dropLast ++ [last ++ ' ' :: pyStrip line]
        else merged ++ [line]
    | none => merged ++ [line]

/-- Python `Claude37_round_3.merge_continuation_lines`. -/
def merge_continuation_lines (lines : List Str) : List Str :=
  lines.foldl mergeStep []

/-- Python `Claude37_round_3.is_valid_table` (parses every line of the
block, with no pipe filter). -/
def is_valid_table (lines : List Str) : Bool :=
  if lines.length < 2 then false
  else
    let rows := lines.map parse_table_row
    match rows with
    | r0 :: r1 :: _ =>
        is_separator_row r1 && rows.all (fun r => r.length == r0.length)
    | _ => false

/-- Python `Claude37_round_3.get_table_style`. -/
def get_table_style (line : Str) : Bool × Bool :=
  let stripped := pyStrip line
  (stripped.head? == some '|', stripped.getLast? == some '|')

/-- Python `Claude37_round_3.get_separator_style`: the stripped first
non-empty cell of the first separator row, defaulting to `---`. -/
def get_separator_style : List Str → Str
  | [] => dashes3
  | line :: rest =>
      let cells := parse_table_row line
      if is_separator_row cells then
        match cells.find? (fun c => !(pyStrip c).isEmpty) with
        | some cell => pyStrip cell
        | none => dashes3
      else get_separator_style rest

/-- The `has_separators_after_each_row` field computed by Python
`Claude37_round_3.detect_table_pattern`. -/
def detect_has_separators_after_each_row (lines : List Str) : Bool :=
  let parsed_rows := lines.map parse_table_row
  let separator_indices :=
    (parsed_rows.enum.filter (fun p => is_separator_row p.2)).map Prod.fst
  decide (2 ≤ separator_indices.length) &&
    !separator_indices.isEmpty &&
      separator_indices.all (fun i => i % 2 == 1)

/-- Python `Claude37_round_3.normalize_row`. -/
def normalize_row (row : List Str) (target_cols : Nat) : List Str :=
  if row.length < target_cols then
    row ++ List.replicate (target_cols - row.length) []
  else if target_cols < row.length then
    row.take (target_cols - 1) ++ [joinSpace (row.drop (target_cols - 1))]
  else row

/-- Python `Claude37_round_3.rebuild_row` (including its
`if not cells: return ''` early return). -/
def rebuild_row (cells : List Str) (leading trailing : Bool) : Str :=
  if cells.isEmpty then []
  else
    let row := List.intercalate [' ', '|', ' '] cells
    let r1 := if leading then '|' :: ' ' :: row else row
    if trailing then r1 ++ [' ', '|'] else r1

/-- The `while` loop of `fix_invalid_table` in the repeated case. -/
def emitRepeated (max_cols : Nat) (sep_style : Str) (style : Bool × Bool) :
    List (List Str) → List Str
  | [] => []
  | r :: rs =>
      if is_separator_row r then emitRepeated max_cols sep_style style rs
      else
        rebuild_row (normalize_row r max_cols) style.1 style.2 ::
          rebuild_row (List.replicate max_cols sep_style) style.1 style.2 ::
            emitRepeated max_cols sep_style style rs

/-- Python `Claude37_round_3.fix_invalid_table`. -/
def fix_invalid_table (lines : List Str) : List Str :=
  match lines with
  | [] => []
  | l0 :: _ =>
    let style := get_table_style l0
    let sep_style := get_separator_style lines
    let pattern := detect_has_separators_after_each_row lines
    let parsed_rows := lines.map parse_table_row
    let max_cols := (parsed_rows.map List.length).foldl max 0
    match parsed_rows with
    | [] => []
    | p0 :: ps =>
      let header := rebuild_row (normalize_row p0 max_cols) style.1 style.2
      let separator :=
        rebuild_row (List.replicate max_cols sep_style) style.1 style.2
      if pattern then
        header :: separator :: emitRepeated max_cols sep_style style ps
      else
        header :: separator ::
          ps.filterMap (fun r =>
            if is_separator_row r then none
            else some (rebuild_row (normalize_row r max_cols) style.1 style.2))

/-- The `flush_table_block` closure of `fix_invalid_markdown_tables`. -/
def flushBlock (table_block : List Str) : List Str :=
  if table_block.isEmpty then []
  else if (table_block.filter hasPipe).length < 2 then table_block
  else
    let merged_lines := merge_continuation_lines table_block
    if is_valid_table merged_lines then table_block
    else fix_invalid_table merged_lines

/-- The segmentation loop of `fix_invalid_markdown_tables`. -/
def fixGo (table_block : List Str) (inside_table : Bool) :
    List Str → List Str
  | [] => if inside_table then flushBlock table_block else []
  | line :: ls =>
      if hasPipe line then
        if !inside_table then fixGo [line] true ls
        else fixGo (table_block ++ [line]) true ls
      else if inside_table && !(pyStrip line).isEmpty then
        fixGo (table_block ++ [line]) inside_table ls
      else if inside_table then
        flushBlock table_block ++ line :: fixGo [] false ls
      else line :: fixGo table_block inside_table ls

/-- Python `Claude37_round_3.fix_invalid_markdown_tables`, on `Str`. -/
def fixChars (markdown_text : Str) : Str :=
  joinLines (fixGo [] false (pySplitlines markdown_text))

/-- Python `Claude37_round_3.fix_invalid_markdown_tables`. -/
def fix_invalid_markdown_tables (markdown_text : String) : String :=
  String.mk (fixChars markdown_text.data)

end Claude37_round_3

namespace Claude37_round_1

/-- Index of the last `\n` in a string, if any. -/
def lastNlIdx : Str → Option Nat
  | [] => none
  | c :: rest =>
      match lastNlIdx rest with
      | some i => some (i + 1)
      | none => if c = '\n' then some 0 else none

/-- Worker for `re.split` on the pattern `\n\s*\n`: at a `\n`, the greedy
`\s*` with backtracking consumes whitespace up to the last `\n` of the
whitespace run that follows; otherwise the character joins the current
piece (`cur` is the reversed current piece). -/
def splitBlankGo (cur : Str) : Str → List Str
  | [] => [cur.reverse]
  | c :: rest =>
      if c = '\n' then
        match lastNlIdx (rest.takeWhile pyIsSpace) with
        | some m => cur.reverse :: splitBlankGo [] (rest.drop (m + 1))
        | none => splitBlankGo (c :: cur) rest
      else splitBlankGo (c :: cur) rest
  termination_by l => l.length
  decreasing_by
    all_goals simp only [List.length_drop, List.length_cons]
    all_goals omega

/-- Python `re.split(r'\n\s*\n', markdown_text)`. -/
def splitBlank (s : Str) : List Str := splitBlankGo [] s

/-- Python `block.split('\n')`. -/
def splitOnNl (b : Str) : List Str := b.splitOn '\n'

/-- Python `re.match(r'^[\s|:-]+$', line) and '---' in line`. -/
def isSepFormatLine (l : Str) : Bool :=
  !l.isEmpty && l.all (fun c => pyIsSpace c || c = '|' || c = ':' || c = '-') &&
    containsSeq l dashes3

/-- Python `Claude37_round_1.is_table_valid`. -/
def is_table_valid (table_text : Str) : Bool :=
  let lines := (splitOnNl table_text).filter (fun l => !(pyStrip l).isEmpty)
  if lines.length < 2 then false
  else
    match lines with
    | l0 :: l1 :: rest =>
        if !(l1.all (fun c => c = '|' || c = ':' || c = '-' || c = ' ')) then
          false
        else
          let header_columns := (l0.splitOn '|').length - 1
          let separator_columns := (l1.splitOn '|').length - 1
          if header_columns ≠ separator_columns then false
          else rest.all (fun l => (l.splitOn '|').length - 1 == header_columns)
    | _ => false

/-- The column-normalisation loop of `fix_table` (non-repeated case). -/
def normalizeLoop (lines : List Str) (sepIdx : List Nat)
    (max_columns : Nat) : List Str :=
  lines.enum.map (fun p =>
    let cells := p.2.splitOn '|'
    let cells := cells ++ List.replicate (max_columns + 1 - cells.length) []
    let cells := cells.take (max_columns + 1)
    if sepIdx.contains p.1 then
      '|' :: List.intercalate ['|'] (cells.tail.map (fun _ => dashes3)) ++ ['|']
    else
      '|' :: List.intercalate ['|'] cells.tail ++ ['|'])

/-- The inner `while` loop of `fix_complex_table` that appends
continuation text to the current row cell; returns the extended cell and
the number of lines consumed. -/
def contLoop (lines : List Str) (sepIdx : List Nat) (cur : Str) (j : Nat) :
    Str × Nat :=
  if h : j < lines.length then
    let lj := lines.get ⟨j, h⟩
    if !sepIdx.contains j && !((pyStrip lj).head? == some '|') then
      let r := contLoop lines sepIdx (cur ++ ' ' :: pyStrip lj) (j + 1)
      (r.1, r.2 + 1)
    else (cur, 0)
  else (cur, 0)
  termination_by lines.length - j

/-- The outer `while` loop of `fix_complex_table` that groups lines into
rows (faithfully including the source quirk that an unflushed pending row
is overwritten at the next iteration). -/
def buildRows (lines : List Str) (sepIdx : List Nat) (i : Nat)
    (rows : List (List Str)) (current_row : List Str) : List (List Str) :=
  if h : i < lines.length then
    let line := lines.get ⟨i, h⟩
    if sepIdx.contains i then
      let rows1 := if !current_row.isEmpty then rows ++ [current_row] else rows
      buildRows lines sepIdx (i + 1) (rows1 ++ [[line]]) []
    else
      let r := contLoop lines sepIdx line (i + 1)
      let j := i + 1 + r.2
      if lines.length ≤ j || sepIdx.contains j then
        buildRows lines sepIdx j (rows ++ [[r.1]]) []
      else buildRows lines sepIdx j rows [r.1]
  else if !current_row.isEmpty then rows ++ [current_row] else rows
  termination_by lines.length - i
  decreasing_by
    · omega
    · omega
    · omega

/-- Python `next((i for i, row in enumerate(rows) if '---' in row[0]), -1)`:
`none` models an `IndexError` from `row[0]`, `some none` the default `-1`.  -/
def findSepStyleIdx : List (List Str) → Nat → Option (Option Nat)
  | [], _ => some none
  | r :: rs, i =>
      match r.head? with
      | none => none
      | some h =>
          if containsSeq h dashes3 then some (some i)
          else findSepStyleIdx rs (i + 1)

/-- Python `max(xs)` over a list, `none` modelling the empty-sequence
`ValueError`. -/
def maxList? : List Nat → Option Nat
  | [] => none
  | x :: xs => some (xs.foldl max x)

/-- The final per-row normalisation loop of the multi-separator branch of
`fix_complex_table` (row 1 is rewritten as a separator). -/
def finalNormalize (new_rows : List Str) (max_columns : Nat) : List Str :=
  new_rows.enum.map (fun p =>
    let cells := p.2.splitOn '|'
    let cells := cells ++ List.replicate (max_columns + 1 - cells.length) []
    let cells := cells.take (max_columns + 1)
    if p.1 = 1 then
      '|' :: List.intercalate ['|'] (cells.tail.map (fun _ => dashes3)) ++ ['|']
    else
      '|' :: List.intercalate ['|'] cells.tail ++ ['|'])

/-- The multi-separator branch of `fix_complex_table` after the rows
are grouped; `none` models an uncaught exception from an unguarded
partial operation. -/
def fixComplexRows (rows : List (List Str)) : Option Str :=
    do
      let header_row ←
        match rows with
        | [] => some []
        | r :: _ => r.head?
      let idx? ← findSepStyleIdx rows 0
      let new_rows ←
        match idx? with
        | none =>
            let cell_count := (header_row.splitOn '|').length - 1
            let separator_row :=
              '|' :: List.intercalate ['|']
                (List.replicate cell_count dashes3) ++ ['|']
            some [header_row, separator_row]
        | some k => do
            let separator_row ← (rows.get? k).bind List.head?
            let rest ←
              (rows.enum.filter (fun p => p.1 ≠ 0 && p.1 ≠ k)).mapM
                (fun p => p.2.head?)
            some (header_row :: separator_row :: rest)
      let max_columns ←
        maxList? (new_rows.map (fun r => (r.splitOn '|').length - 1))
      some (joinLines (finalNormalize new_rows max_columns))

/-- The multi-separator branch of `fix_complex_table`. -/
def fixComplexMulti (lines : List Str) (separator_indices : List Nat) :
    Option Str :=
  fixComplexRows (buildRows lines separator_indices 0 [] [])

/-- The single-separator branch of `fix_complex_table`. -/
def fixComplexSingle (table_text : Str) (lines : List Str)
    (separator_indices : List Nat) : Option Str :=
    match separator_indices with
    | [] => some table_text
    | s0 :: _ => do
        let header ← lines.get? 0
        let separator ← lines.get? s0
        let data_rows :=
          (lines.enum.filter (fun p => p.1 ≠ 0 && !(p.1 == s0))).map Prod.snd
        let max_columns :=
          max ((header.splitOn '|').length - 1)
            (max ((separator.splitOn '|').length - 1)
              ((data_rows.map (fun r => (r.splitOn '|').length - 1)).foldl
                max 0))
        let header_cells := (header.splitOn '|').tail.dropLast
        let header_cells :=
          header_cells ++
            List.replicate (max_columns - header_cells.length) []
        let headerLine := '|' :: List.intercalate ['|'] header_cells ++ ['|']
        let separatorLine :=
          '|' :: List.intercalate ['|']
            (List.replicate max_columns dashes3) ++ ['|']
        let fixed_data_rows := data_rows.map (fun row =>
          let cells := (row.splitOn '|').tail.dropLast
          let cells := cells ++ List.replicate (max_columns - cells.length) []
          '|' :: List.intercalate ['|'] cells ++ ['|'])
        some (joinLines (headerLine :: separatorLine :: fixed_data_rows))

/-- Python `Claude37_round_1.fix_complex_table`; `none` models an
uncaught exception from an unguarded partial operation. -/
def fix_complex_table (table_text : Str) : Option Str :=
  let lines := (splitOnNl table_text).filter (fun l => !(pyStrip l).isEmpty)
  let separator_indices :=
    (lines.enum.filter (fun p => isSepFormatLine p.2)).map Prod.fst
  if 1 < separator_indices.length then fixComplexMulti lines separator_indices
  else fixComplexSingle table_text lines separator_indices

/-- The body of `fix_table` after `lines` and `separator_indices` are
computed. -/
def fixTableCore (table_text : Str) (lines : List Str)
    (separator_indices : List Nat) : Option Str :=
  match separator_indices with
  | [] => some table_text
  | s0 :: stail =>
    let max_columns :=
      lines.foldl (fun m l => max m ((l.splitOn '|').length - 1)) 0
    let repeated_separators :=
      !stail.isEmpty &&
        (match stail with
         | s1 :: _ => decide (s0 + 1 ≠ s1)
         | [] => false)
    do
      let fixed_lines ←
        if repeated_separators then do
          let first_separator ← lines.get? s0
          let data_rows :=
            (lines.enum.filter
              (fun p => !(s0 :: stail).contains p.1)).map Prod.snd
          match data_rows with
          | [] => none
          | d0 :: drest => some (d0 :: first_separator :: drest)
        else some (normalizeLoop lines (s0 :: stail) max_columns)
      let fixed_table := joinLines fixed_lines
      if is_table_valid fixed_table then some fixed_table
      else fix_complex_table table_text

/-- Python `Claude37_round_1.fix_table`. -/
def fix_table (table_text : Str) : Option Str :=
  let lines := (splitOnNl table_text).filter (fun l => !(pyStrip l).isEmpty)
  let separator_indices :=
    (lines.enum.filter (fun p => decide (0 < p.1) && isSepFormatLine p.2)).map
      Prod.fst
  fixTableCore table_text lines separator_indices

/-- Python `Claude37_round_1.fix_invalid_markdown_tables`, on `Str`. -/
def fixChars (markdown_text : Str) : Option Str :=
  let blocks := splitBlank markdown_text
  (blocks.mapM (fun block =>
    if hasPipe block &&
        ((splitOnNl block).filter hasPipe).any (fun l => l.contains '-') then
      fix_table block
    else some block)).map (List.intercalate ['\n', '\n'])

/-- Python `Claude37_round_1.fix_invalid_markdown_tables`; `none` models
an uncaught exception. -/
def fix_invalid_markdown_tables (markdown_text : String) : Option String :=
  (fixChars markdown_text.data).map String.mk

end Claude37_round_1

/-- The strings of `l` occur, in order, as non-overlapping contiguous
substrings of `s`. -/
def substringsInOrder : Str → List Str → Prop
  | _, [] => True
  | s, c :: cs => ∃ pre rest, s = pre ++ c ++ rest ∧ substringsInOrder rest cs

/-- The repeated-layout condition exactly as claim C6 words it: the set
of separator-row indices has at least two members, and at least half of
those indices are odd.  (Comparison definition, following the claim, to
be measured against the code's `_detect_repeated_separators`.) -/
def claimed_repeated_layout (rows : List (List Str)) : Bool :=
  let sepIdx :=
    (List.range rows.length).filter
      (fun i => O1_pro_round_5._is_separator_row (rows.getD i []))
  decide (2 ≤ sepIdx.length) &&
    decide (sepIdx.length ≤ 2 * (sepIdx.filter (fun i => i % 2 == 1)).length)

/-!
## Theorems

General lemmas about the string primitives come first, then one theorem
per specification claim (with counterexamples and witnesses where
required).
-/

/-- Claim C2, counterexample: `Claude37_round_5.fix_invalid_markdown_tables`
is not idempotent.  On `a|b` over `1|2|3` the first pass pads the header
to `a | b | `, whose trailing space is `rstrip`-ped away on the second
pass, so the re-parsed header has two cells, the table is invalid again,
and the second pass rewrites it with a trailing-pipe style. -/
theorem claude37_round_5_not_idempotent :
    Claude37_round_5.fix_invalid_markdown_tables
        (Claude37_round_5.fix_invalid_markdown_tables "a|b\n1|2|3") ≠
      Claude37_round_5.fix_invalid_markdown_tables "a|b\n1|2|3" := by
  decide

/-- Claim C5, counterexample: a row composed entirely of empty cells is
accepted by `Grok3_round_5.is_separator_row` (the claim asserts it is
rejected): the `all` over the non-empty cells is vacuously true. -/
theorem grok3_round_5_is_separator_row_empty_cells :
    Grok3_round_5.is_separator_row [[], []] = true ∧
    ([[], []] : List Str).all (fun c => (pyStrip c).isEmpty) = true := by
  decide

/-- Claim C6, counterexample: on rows `a|b` / `---|---` / `c|d|e` the
code's `_detect_repeated_separators` answers `true` although the set of
separator indices has a single member, so the claimed condition (at
least two members, at least half of them odd) is false. -/
theorem o1_pro_round_5_detect_counterexample :
    O1_pro_round_5._detect_repeated_separators
        [["a".data, "b".data], ["---".data, "---".data],
         ["c".data, "d".data, "e".data]] = true ∧
    claimed_repeated_layout
        [["a".data, "b".data], ["---".data, "---".data],
         ["c".data, "d".data, "e".data]] = false := by
  decide

/-- Claim C7, counterexample: repairing the invalid block
`a|b` / `:---:|:---:` / `c|d|e`, `Claude37_round_3` emits the separator
row `:---: | :---: | :---:`, whose cells are `:---:`, not `---`: the
alignment colons of the original separator are reproduced. -/
theorem claude37_round_3_separator_style_counterexample :
    Claude37_round_3.fix_invalid_markdown_tables "a|b\n:---:|:---:\nc|d|e" =
      "a | b | \n:---: | :---: | :---:\nc | d | e" ∧
    Claude37_round_3.is_separator_row
        (Claude37_round_3.parse_table_row ":---: | :---: | :---:".data) =
      true ∧
    Claude37_round_3.parse_table_row ":---: | :---: | :---:".data =
      [":---:".data, ":---:".data, ":---:".data] ∧
    (":---:".data : Str) ≠ dashes3 := by
  decide

/-- Claim C8: on the six-line document of Scenario B the block is in
fact already valid, so `O1_pro_round_5.fix_invalid_markdown_tables`
returns it unchanged; the repeated-separator detector classifies its
rows as repeated, and the output has exactly one separator row directly
after each of the two data rows (lines 2 and 4, zero-based). -/
theorem o1_pro_round_5_scenario_b :
    O1_pro_round_5.fix_invalid_markdown_tables
        "h1|h2\n---|---\nd1|d2\n---|---\ne1|e2\n---|---" =
      "h1|h2\n---|---\nd1|d2\n---|---\ne1|e2\n---|---" ∧
    O1_pro_round_5._detect_repeated_separators
        ((pySplitlines "h1|h2\n---|---\nd1|d2\n---|---\ne1|e2\n---|---".data).map
          O1_pro_round_5._parse_row) = true ∧
    (pySplitlines (O1_pro_round_5.fix_invalid_markdown_tables
        "h1|h2\n---|---\nd1|d2\n---|---\ne1|e2\n---|---").data).map
      (fun l => O1_pro_round_5._is_separator_row (O1_pro_round_5._parse_row l)) =
      [false, true, false, true, false, true] := by
  decide

/-- Claim C9, counterexample: on `x`, blank, blank, `y` (four pipe-free
lines) `Grok3_round_1.fix_invalid_markdown_tables` collapses the two
blank lines into one, so the input's pipe-free lines do not all appear
at their original relative positions in the output. -/
theorem grok3_round_1_drops_blank_lines :
    Grok3_round_1.fix_invalid_markdown_tables "x\n\n\ny" = "x\n\ny" ∧
    (∀ l ∈ pySplitlines "x\n\n\ny".data, hasPipe l = false) ∧
    ¬ ((pySplitlines "x\n\n\ny".data).Sublist
        (pySplitlines
          (Grok3_round_1.fix_invalid_markdown_tables "x\n\n\ny").data)) := by
  decide

theorem joinLines_nil : joinLines [] = [] := by
  simp [joinLines, List.intercalate]

theorem joinLines_single (x : Str) : joinLines [x] = x := by
  simp [joinLines, List.intercalate]

theorem joinLines_cons (x : Str) (xs : List Str) (h : xs ≠ []) :
    joinLines (x :: xs) = x ++ '\n' :: joinLines xs := by
  cases xs with
  | nil => exact absurd rfl h
  | cons y ys =>
    simp [joinLines, List.intercalate, List.intersperse]


theorem hasPipe_iff (l : Str) : hasPipe l = true ↔ '|' ∈ l := by
  simp [hasPipe, List.contains_iff_exists_mem_beq, beq_iff_eq]

theorem pySplitlinesGo_ne_nil (cur s : Str) : pySplitlinesGo cur s ≠ [] := by
  induction cur, s using pySplitlinesGo.induct with
  | case1 cur => simp [pySplitlinesGo]
  | case2 cur c hbr => simp [pySplitlinesGo, hbr]
  | case3 cur c hbr ih =>
      simp only [pySplitlinesGo, hbr, Bool.false_eq_true, if_false]
      exact ih
  | case4 cur c d rest2 hcd ih => simp [pySplitlinesGo, hcd]
  | case5 cur c d rest2 hcd hbr ih => simp [pySplitlinesGo, hcd, hbr]
  | case6 cur c d rest2 hcd hbr ih => simpa [pySplitlinesGo, hcd, hbr] using ih

theorem pySplitlinesGo_no_break (cur s : Str)
    (h : ∀ c ∈ s, isLineBreak c = false) :
    pySplitlinesGo cur s = [cur.reverse ++ s] := by
  induction cur, s using pySplitlinesGo.induct with
  | case1 cur => simp [pySplitlinesGo]
  | case2 cur c hbr => simp [h c (by simp)] at hbr
  | case3 cur c hbr ih =>
      have := ih (by intro x hx; cases hx)
      simp only [pySplitlinesGo, if_neg hbr, this]
      simp
  | case4 cur c d rest2 hcd ih =>
      have hc : isLineBreak c = false := h c (by simp)
      have : c = '\r' := by
        rcases Bool.and_eq_true_iff.mp hcd with ⟨h1, _⟩
        exact of_decide_eq_true h1
      rw [this] at hc
      simp [isLineBreak] at hc
  | case5 cur c d rest2 hcd hbr ih => simp [h c (by simp)] at hbr
  | case6 cur c d rest2 hcd hbr ih =>
      have := ih (by intro x hx; exact h x (List.mem_cons_of_mem _ hx))
      simp only [pySplitlinesGo, hcd, hbr, Bool.false_eq_true, if_false, this]
      simp

theorem pySplitlines_no_break (s : Str) (hne : s ≠ [])
    (h : ∀ c ∈ s, isLineBreak c = false) : pySplitlines s = [s] := by
  cases s with
  | nil => exact absurd rfl hne
  | cons c rest =>
      show pySplitlinesGo [] (c :: rest) = [c :: rest]
      simpa using pySplitlinesGo_no_break [] (c :: rest) h

theorem pySplitlinesGo_append_nl (l : Str)
    (hl : ∀ c ∈ l, isLineBreak c = false) (cur rest : Str) (hr : rest ≠ []) :
    pySplitlinesGo cur (l ++ '\n' :: rest) =
      (cur.reverse ++ l) :: pySplitlinesGo [] rest := by
  induction l generalizing cur with
  | nil =>
      cases rest with
      | nil => exact absurd rfl hr
      | cons d rest2 =>
          simp [pySplitlinesGo, isLineBreak]
  | cons a l' ih =>
      have ha : isLineBreak a = false := hl a (by simp)
      have ha' : a ≠ '\r' := by
        intro h; rw [h] at ha; simp [isLineBreak] at ha
      cases hX : l' ++ '\n' :: rest with
      | nil => simp at hX
      | cons d rest2 =>
          have := ih (fun c hc => hl c (List.mem_cons_of_mem _ hc)) (a :: cur)
          rw [hX] at this
          simp only [List.cons_append, hX, pySplitlinesGo, ha, ha',
            Bool.false_eq_true, if_false, decide_False, Bool.false_and, this]
          simp

theorem pySplitlinesGo_append_crlf_end (l : Str)
    (hl : ∀ c ∈ l, isLineBreak c = false) (cur : Str) :
    pySplitlinesGo cur (l ++ ['\r', '\n']) = [cur.reverse ++ l] := by
  induction l generalizing cur with
  | nil => simp [pySplitlinesGo]
  | cons a l' ih =>
      have ha : isLineBreak a = false := hl a (by simp)
      have ha' : a ≠ '\r' := by
        intro h; rw [h] at ha; simp [isLineBreak] at ha
      cases hX : l' ++ ['\r', '\n'] with
      | nil => simp at hX
      | cons d rest2 =>
          have := ih (fun c hc => hl c (List.mem_cons_of_mem _ hc)) (a :: cur)
          rw [hX] at this
          simp only [List.cons_append, hX, pySplitlinesGo, ha, ha',
            Bool.false_eq_true, if_false, decide_False, Bool.false_and, this]
          simp

theorem pySplitlinesGo_chars (cur s : Str) :
    ∀ l ∈ pySplitlinesGo cur s, ∀ c ∈ l, c ∈ cur ∨ c ∈ s := by
  induction cur, s using pySplitlinesGo.induct with
  | case1 cur =>
      intro l hl c hc
      simp only [pySplitlinesGo, List.mem_singleton] at hl
      subst hl; exact Or.inl (List.mem_reverse.mp hc)
  | case2 cur c hbr =>
      intro l hl x hx
      simp only [pySplitlinesGo, hbr, if_true, List.mem_singleton] at hl
      subst hl; exact Or.inl (List.mem_reverse.mp hx)
  | case3 cur c hbr ih =>
      intro l hl x hx
      simp only [pySplitlinesGo, hbr, Bool.false_eq_true, if_false] at hl
      rcases ih l hl x hx with h | h
      · rcases List.mem_cons.mp h with h | h
        · exact Or.inr (by simp [h])
        · exact Or.inl h
      · cases h
  | case4 cur c d rest2 hcd ih =>
      intro l hl x hx
      simp only [pySplitlinesGo, hcd, if_true, List.mem_cons] at hl
      rcases hl with rfl | hl
      · exact Or.inl (List.mem_reverse.mp hx)
      · by_cases hre : rest2.isEmpty
        · rw [if_pos hre] at hl; cases hl
        · rw [if_neg hre] at hl
          rcases ih l hl x hx with h | h
          · cases h
          · exact Or.inr (by simp [h])
  | case5 cur c d rest2 hcd hbr ih =>
      intro l hl x hx
      simp only [pySplitlinesGo, hcd, hbr, Bool.false_eq_true, if_false,
        if_true, List.mem_cons] at hl
      rcases hl with rfl | hl
      · exact Or.inl (List.mem_reverse.mp hx)
      · rcases ih l hl x hx with h | h
        · cases h
        · exact Or.inr (by simp [List.mem_cons.mp h])
  | case6 cur c d rest2 hcd hbr ih =>
      intro l hl x hx
      simp only [pySplitlinesGo, hcd, hbr, Bool.false_eq_true, if_false] at hl
      rcases ih l hl x hx with h | h
      · rcases List.mem_cons.mp h with h | h
        · exact Or.inr (by simp [h])
        · exact Or.inl h
      · exact Or.inr (by simp [List.mem_cons.mp h])

theorem pySplitlinesGo_lines_no_break (cur s : Str)
    (hcur : ∀ c ∈ cur, isLineBreak c = false) :
    ∀ l ∈ pySplitlinesGo cur s, ∀ c ∈ l, isLineBreak c = false := by
  induction cur, s using pySplitlinesGo.induct with
  | case1 cur =>
      intro l hl c hc
      simp only [pySplitlinesGo, List.mem_singleton] at hl
      subst hl; exact hcur c (List.mem_reverse.mp hc)
  | case2 cur c hbr =>
      intro l hl x hx
      simp only [pySplitlinesGo, hbr, if_true, List.mem_singleton] at hl
      subst hl; exact hcur x (List.mem_reverse.mp hx)
  | case3 cur c hbr ih =>
      intro l hl x hx
      simp only [pySplitlinesGo, hbr, Bool.false_eq_true, if_false] at hl
      refine ih ?_ l hl x hx
      intro y hy
      rcases List.mem_cons.mp hy with rfl | hy
      · simpa using hbr
      · exact hcur y hy
  | case4 cur c d rest2 hcd ih =>
      intro l hl x hx
      simp only [pySplitlinesGo, hcd, if_true, List.mem_cons] at hl
      rcases hl with rfl | hl
      · exact hcur x (List.mem_reverse.mp hx)
      · by_cases hre : rest2.isEmpty
        · rw [if_pos hre] at hl; cases hl
        · rw [if_neg hre] at hl
          exact ih (by intro y hy; cases hy) l hl x hx
  | case5 cur c d rest2 hcd hbr ih =>
      intro l hl x hx
      simp only [pySplitlinesGo, hcd, hbr, Bool.false_eq_true, if_false,
        if_true, List.mem_cons] at hl
      rcases hl with rfl | hl
      · exact hcur x (List.mem_reverse.mp hx)
      · exact ih (by intro y hy; cases hy) l hl x hx
  | case6 cur c d rest2 hcd hbr ih =>
      intro l hl x hx
      simp only [pySplitlinesGo, hcd, hbr, Bool.false_eq_true, if_false] at hl
      refine ih ?_ l hl x hx
      intro y hy
      rcases List.mem_cons.mp hy with rfl | hy
      · simpa using hbr
      · exact hcur y hy

theorem pySplitlines_lines_no_break (s : Str) :
    ∀ l ∈ pySplitlines s, ∀ c ∈ l, isLineBreak c = false := by
  cases s with
  | nil => intro l hl; cases hl
  | cons c rest =>
      exact pySplitlinesGo_lines_no_break [] (c :: rest) (by intro y hy; cases hy)

theorem pySplitlines_chars (s : Str) :
    ∀ l ∈ pySplitlines s, ∀ c ∈ l, c ∈ s := by
  cases s with
  | nil => intro l hl; cases hl
  | cons c rest =>
      intro l hl x hx
      rcases pySplitlinesGo_chars [] (c :: rest) l hl x hx with h | h
      · cases h
      · exact h

theorem getLast?_cons_ne_nil {α : Type} (x : α) (l : List α) (h : l ≠ []) :
    (x :: l).getLast? = l.getLast? := by
  cases l with
  | nil => exact absurd rfl h
  | cons y ys => simp [List.getLast?_cons_cons]

theorem pySplitlinesGo_last_ne_nil (cur s : Str) (hne : s ≠ [])
    (hl : ∀ b, s.getLast? = some b → isLineBreak b = false) :
    ∃ t, (pySplitlinesGo cur s).getLast? = some t ∧ t ≠ [] := by
  induction cur, s using pySplitlinesGo.induct with
  | case1 cur => exact absurd rfl hne
  | case2 cur c hbr =>
      have := hl c (by simp)
      rw [this] at hbr; cases hbr
  | case3 cur c hbr ih =>
      refine ⟨(c :: cur).reverse, ?_, by simp⟩
      simp [pySplitlinesGo, hbr]
  | case4 cur c d rest2 hcd ih =>
      cases hre : rest2 with
      | nil =>
          subst hre
          have := hl '\n' (by
            have : c = '\r' ∧ d = '\n' := by
              rcases Bool.and_eq_true_iff.mp hcd with ⟨h1, h2⟩
              exact ⟨of_decide_eq_true h1, of_decide_eq_true h2⟩
            simp [this.2])
          simp [isLineBreak] at this
      | cons e rest3 =>
          subst hre
          obtain ⟨t, ht, htne⟩ := ih (by simp) (by
            intro b hb
            apply hl
            simpa [List.getLast?_cons_cons] using hb)
          refine ⟨t, ?_, htne⟩
          have hne' := pySplitlinesGo_ne_nil [] (e :: rest3)
          simp only [pySplitlinesGo, hcd, if_true, List.isEmpty_cons,
            Bool.false_eq_true, if_false]
          rwa [getLast?_cons_ne_nil _ _ hne']
  | case5 cur c d rest2 hcd hbr ih =>
      obtain ⟨t, ht, htne⟩ := ih (by simp) (by
        intro b hb
        apply hl
        simpa [List.getLast?_cons_cons] using hb)
      refine ⟨t, ?_, htne⟩
      have hne' := pySplitlinesGo_ne_nil ([] : Str) (d :: rest2)
      simp only [pySplitlinesGo, hcd, hbr, Bool.false_eq_true, if_false, if_true]
      rwa [getLast?_cons_ne_nil _ _ hne']
  | case6 cur c d rest2 hcd hbr ih =>
      obtain ⟨t, ht, htne⟩ := ih (by simp) (by
        intro b hb
        apply hl
        simpa [List.getLast?_cons_cons] using hb)
      refine ⟨t, ?_, htne⟩
      simpa [pySplitlinesGo, hcd, hbr] using ht

theorem pySplitlines_eq_go (s : Str) (h : s ≠ []) :
    pySplitlines s = pySplitlinesGo [] s := by
  cases s with
  | nil => exact absurd rfl h
  | cons c rest => rfl

theorem joinLines_ne_nil (bl : List Str) (h1 : bl ≠ [])
    (h2 : ∀ t, bl.getLast? = some t → t ≠ []) : joinLines bl ≠ [] := by
  cases bl with
  | nil => exact absurd rfl h1
  | cons x xs =>
      cases xs with
      | nil =>
          have := h2 x (by simp)
          simpa [joinLines_single] using this
      | cons y ys =>
          rw [joinLines_cons x (y :: ys) (by simp)]
          intro h
          rcases List.append_eq_nil.mp h with ⟨_, h⟩
          cases h

theorem pySplitlines_joinLines (bl : List Str) (h1 : bl ≠ [])
    (hb : ∀ l ∈ bl, ∀ c ∈ l, isLineBreak c = false)
    (h2 : ∀ t, bl.getLast? = some t → t ≠ []) :
    pySplitlines (joinLines bl) = bl := by
  induction bl with
  | nil => exact absurd rfl h1
  | cons x xs ih =>
      cases xs with
      | nil =>
          rw [joinLines_single]
          exact pySplitlines_no_break x (h2 x (by simp)) (hb x (by simp))
      | cons y ys =>
          have hxs : (y :: ys) ≠ [] := by simp
          have hbxs : ∀ l ∈ y :: ys, ∀ c ∈ l, isLineBreak c = false := by
            intro l hl
            exact hb l (List.mem_cons_of_mem _ hl)
          have h2xs : ∀ t, (y :: ys).getLast? = some t → t ≠ [] := by
            intro t ht
            exact h2 t (by rwa [getLast?_cons_ne_nil x (y :: ys) hxs])
          have hJ : joinLines (y :: ys) ≠ [] := joinLines_ne_nil _ hxs h2xs
          rw [joinLines_cons x (y :: ys) hxs]
          have hx : ∀ c ∈ x, isLineBreak c = false := hb x (by simp)
          rw [pySplitlines_eq_go _ (by
            intro h
            rcases List.append_eq_nil.mp h with ⟨_, h⟩
            cases h)]
          rw [pySplitlinesGo_append_nl x hx [] (joinLines (y :: ys)) hJ]
          rw [← pySplitlines_eq_go _ hJ, ih hxs hbxs h2xs]
          simp

theorem joinLines_pySplitlinesGo (cur s : Str)
    (h1 : ∀ c ∈ s, isLineBreak c = true → c = '\n')
    (h2 : s.getLast? ≠ some '\n') :
    joinLines (pySplitlinesGo cur s) = cur.reverse ++ s := by
  induction cur, s using pySplitlinesGo.induct with
  | case1 cur => simp [pySplitlinesGo, joinLines_single]
  | case2 cur c hbr =>
      have := h1 c (by simp) hbr
      subst this
      simp at h2
  | case3 cur c hbr ih =>
      have := ih (by intro x hx; cases hx) (by simp)
      simp only [pySplitlinesGo, hbr, Bool.false_eq_true, if_false, this]
      simp [joinLines_single]
  | case4 cur c d rest2 hcd ih =>
      have hc : c = '\r' := by
        rcases Bool.and_eq_true_iff.mp hcd with ⟨h, _⟩
        exact of_decide_eq_true h
      have := h1 c (by simp) (by simp [hc, isLineBreak])
      rw [this] at hc
      cases hc
  | case5 cur c d rest2 hcd hbr ih =>
      have hc : c = '\n' := h1 c (by simp) hbr
      have hrec := ih
        (by intro x hx hbx; exact h1 x (List.mem_cons_of_mem _ hx) hbx)
        (by rwa [getLast?_cons_ne_nil c (d :: rest2) (by simp)] at h2)
      have hne := pySplitlinesGo_ne_nil ([] : Str) (d :: rest2)
      simp only [pySplitlinesGo, hcd, hbr, Bool.false_eq_true, if_false,
        if_true]
      rw [joinLines_cons _ _ hne, hrec, hc]
      simp
  | case6 cur c d rest2 hcd hbr ih =>
      have hrec := ih
        (by intro x hx hbx; exact h1 x (List.mem_cons_of_mem _ hx) hbx)
        (by rwa [getLast?_cons_ne_nil c (d :: rest2) (by simp)] at h2)
      simp only [pySplitlinesGo, hcd, hbr, Bool.false_eq_true, if_false, hrec]
      simp

theorem joinLines_pySplitlines (s : Str)
    (h1 : ∀ c ∈ s, isLineBreak c = true → c = '\n')
    (h2 : s.getLast? ≠ some '\n') :
    joinLines (pySplitlines s) = s := by
  cases s with
  | nil => simp [pySplitlines, joinLines_nil]
  | cons c rest =>
      have := joinLines_pySplitlinesGo [] (c :: rest) h1 h2
      simpa using this

theorem claude37r5_fixGo_no_pipe (ls : List Str)
    (h : ∀ l ∈ ls, hasPipe l = false) :
    Claude37_round_5.fixGo [] false ls = ls := by
  induction ls with
  | nil => rfl
  | cons l ls ih =>
      have hl : hasPipe l = false := h l (by simp)
      simp only [Claude37_round_5.fixGo, hl, Bool.false_eq_true, if_false,
        Bool.false_and, if_true]
      rw [ih (fun x hx => h x (List.mem_cons_of_mem _ hx))]

theorem pySplitlines_no_pipe (s : Str) (hp : '|' ∉ s) :
    ∀ l ∈ pySplitlines s, hasPipe l = false := by
  intro l hl
  cases h : hasPipe l with
  | false => rfl
  | true =>
      exact absurd (pySplitlines_chars s l hl '|' ((hasPipe_iff l).mp h)) hp

/-- Claim C10: on pipe-free input, `Claude37_round_5.fix_invalid_markdown_tables`
returns the input's lines rejoined with a line feed; hence an input whose
only break characters are line feeds and which does not end in one is
returned unchanged, and a trailing carriage-return line-feed is removed. -/
theorem claude37_round_5_pipe_free_passthrough (x : String)
    (hp : '|' ∉ x.data) :
    Claude37_round_5.fix_invalid_markdown_tables x =
      String.mk (joinLines (pySplitlines x.data)) ∧
    ((∀ c ∈ x.data, isLineBreak c = true → c = '\n') →
      x.data.getLast? ≠ some '\n' →
      Claude37_round_5.fix_invalid_markdown_tables x = x) ∧
    ((∀ c ∈ x.data, isLineBreak c = false) →
      Claude37_round_5.fix_invalid_markdown_tables
        (String.mk (x.data ++ ['\r', '\n'])) = x) := by
  have base :
      Claude37_round_5.fix_invalid_markdown_tables x =
        String.mk (joinLines (pySplitlines x.data)) := by
    unfold Claude37_round_5.fix_invalid_markdown_tables
      Claude37_round_5.fixChars
    rw [claude37r5_fixGo_no_pipe _ (pySplitlines_no_pipe x.data hp)]
  refine ⟨base, ?_, ?_⟩
  · intro h1 h2
    rw [base, joinLines_pySplitlines x.data h1 h2]
  · intro hbf
    unfold Claude37_round_5.fix_invalid_markdown_tables
      Claude37_round_5.fixChars
    have hsl : pySplitlines (x.data ++ ['\r', '\n']) = [x.data] := by
      rw [pySplitlines_eq_go _ (by simp)]
      simpa using pySplitlinesGo_append_crlf_end x.data hbf []
    simp only [String.data]
    rw [hsl]
    rw [claude37r5_fixGo_no_pipe [x.data] (by
      intro l hl
      have hlx : l = x.data := List.mem_singleton.mp hl
      cases h : hasPipe l with
      | false => rfl
      | true =>
          rw [hlx] at h
          exact absurd ((hasPipe_iff x.data).mp h) hp)]
    rw [joinLines_single]

/-- Witness for claim C10 at the concrete input `ab`, line feed, `cd`. -/
theorem claude37_round_5_pipe_free_passthrough_witness :
    Claude37_round_5.fix_invalid_markdown_tables "ab\ncd" = "ab\ncd" ∧
    Claude37_round_5.fix_invalid_markdown_tables
      (String.mk ("abcd".data ++ ['\r', '\n'])) = "abcd" := by
  refine ⟨?_, ?_⟩
  · exact (claude37_round_5_pipe_free_passthrough "ab\ncd" (by decide)).2.1
      (by decide) (by decide)
  · exact (claude37_round_5_pipe_free_passthrough "abcd" (by decide)).2.2
      (by decide)

theorem claude37r5_fixChars_no_pipe (s : Str) (hp : '|' ∉ s) :
    Claude37_round_5.fixChars s = joinLines (pySplitlines s) := by
  unfold Claude37_round_5.fixChars
  rw [claude37r5_fixGo_no_pipe _ (pySplitlines_no_pipe s hp)]

theorem mem_joinLines (ls : List Str) (c : Char) (h : c ∈ joinLines ls) :
    (∃ l ∈ ls, c ∈ l) ∨ c = '\n' := by
  induction ls with
  | nil => simp [joinLines_nil] at h
  | cons x xs ih =>
      cases xs with
      | nil =>
          rw [joinLines_single] at h
          exact Or.inl ⟨x, by simp, h⟩
      | cons y ys =>
          rw [joinLines_cons x _ (by simp)] at h
          rcases List.mem_append.mp h with h | h
          · exact Or.inl ⟨x, by simp, h⟩
          · rcases List.mem_cons.mp h with rfl | h
            · exact Or.inr rfl
            · rcases ih h with ⟨l, hl, hc⟩ | h
              · exact Or.inl ⟨l, List.mem_cons_of_mem _ hl, hc⟩
              · exact Or.inr h

/-- Claim C2, amended: `Claude37_round_5.fix_invalid_markdown_tables` is
not idempotent in general (see the counterexample), but it is idempotent
on every input that contains no pipe character and does not end in a
line-break character. -/
theorem claude37_round_5_idempotent_on_pipe_free (x : String)
    (hp : '|' ∉ x.data)
    (hlast : ∀ b, x.data.getLast? = some b → isLineBreak b = false) :
    Claude37_round_5.fix_invalid_markdown_tables
        (Claude37_round_5.fix_invalid_markdown_tables x) =
      Claude37_round_5.fix_invalid_markdown_tables x := by
  cases hx : x.data with
  | nil =>
      have h1 : Claude37_round_5.fix_invalid_markdown_tables x =
          String.mk [] := by
        unfold Claude37_round_5.fix_invalid_markdown_tables
        rw [hx]
        rfl
      rw [h1]
      unfold Claude37_round_5.fix_invalid_markdown_tables
      rfl
  | cons c rest =>
      have hne : x.data ≠ [] := by rw [hx]; simp
      have hbase : Claude37_round_5.fix_invalid_markdown_tables x =
          String.mk (joinLines (pySplitlines x.data)) := by
        unfold Claude37_round_5.fix_invalid_markdown_tables
        rw [claude37r5_fixChars_no_pipe x.data hp]
      have hlsne : pySplitlines x.data ≠ [] := by
        rw [pySplitlines_eq_go x.data hne]
        exact pySplitlinesGo_ne_nil [] x.data
      have hlbf : ∀ l ∈ pySplitlines x.data, ∀ c ∈ l, isLineBreak c = false :=
        pySplitlines_lines_no_break x.data
      have hlast2 : ∀ t, (pySplitlines x.data).getLast? = some t → t ≠ [] := by
        obtain ⟨t, ht, htne⟩ :=
          pySplitlinesGo_last_ne_nil [] x.data hne hlast
        intro t' ht'
        rw [pySplitlines_eq_go x.data hne] at ht'
        rw [ht] at ht'
        injection ht' with h
        rwa [h] at htne
      have hjp : '|' ∉ joinLines (pySplitlines x.data) := by
        intro hmem
        rcases mem_joinLines _ _ hmem with ⟨l, hl, hc⟩ | h
        · exact hp (pySplitlines_chars x.data l hl '|' hc)
        · cases h
      rw [hbase]
      unfold Claude37_round_5.fix_invalid_markdown_tables
      show String.mk
          (Claude37_round_5.fixChars (joinLines (pySplitlines x.data))) = _
      rw [claude37r5_fixChars_no_pipe _ hjp,
        pySplitlines_joinLines _ hlsne hlbf hlast2]

/-- Witness for the amended claim C2 at the concrete pipe-free input
`hello`, line feed, `world`. -/
theorem claude37_round_5_idempotent_on_pipe_free_witness :
    Claude37_round_5.fix_invalid_markdown_tables
        (Claude37_round_5.fix_invalid_markdown_tables "hello\nworld") =
      Claude37_round_5.fix_invalid_markdown_tables "hello\nworld" :=
  claude37_round_5_idempotent_on_pipe_free "hello\nworld" (by decide)
    (by decide)

theorem joinSpace_cons (x : Str) (xs : List Str) (h : xs ≠ []) :
    joinSpace (x :: xs) = x ++ ' ' :: joinSpace xs := by
  cases xs with
  | nil => exact absurd rfl h
  | cons y ys => simp [joinSpace, List.intercalate, List.intersperse]

theorem substringsInOrder_append_left (x s : Str) (l : List Str)
    (h : substringsInOrder s l) : substringsInOrder (x ++ s) l := by
  cases l with
  | nil => trivial
  | cons c cs =>
      obtain ⟨pre, rest, hs, htail⟩ := h
      exact ⟨x ++ pre, rest, by rw [hs]; simp, htail⟩

theorem substringsInOrder_joinSpace (l : List Str) :
    substringsInOrder (joinSpace l) l := by
  induction l with
  | nil => trivial
  | cons c cs ih =>
      cases cs with
      | nil =>
          refine ⟨[], [], ?_, trivial⟩
          simp [joinSpace, List.intercalate]
      | cons d ds =>
          refine ⟨[], ' ' :: joinSpace (d :: ds), ?_, ?_⟩
          · rw [joinSpace_cons c (d :: ds) (by simp)]
            simp
          · exact substringsInOrder_append_left [' '] _ _ ih

/-- Claim C4: for `1 ≤ target_cols < row.length`,
`O1_pro_round_5._normalize_row` returns exactly `target_cols` cells, the
first `target_cols - 1` of them are the original cells, and the last
cell is the space-join of the overflow cells
`row[target_cols - 1], row[target_cols], …`, which therefore contains
each overflow cell, in order, as a substring: no cell content is lost. -/
theorem o1_pro_round_5_normalize_row_no_data_loss
    (row : List Str) (target_cols : Nat)
    (h1 : 1 ≤ target_cols) (h2 : target_cols < row.length) :
    (O1_pro_round_5._normalize_row row target_cols).length = target_cols ∧
    (O1_pro_round_5._normalize_row row target_cols).take (target_cols - 1) =
      row.take (target_cols - 1) ∧
    (O1_pro_round_5._normalize_row row target_cols).getLast? =
      some (joinSpace (row.drop (target_cols - 1))) ∧
    substringsInOrder (joinSpace (row.drop (target_cols - 1)))
      (row.drop (target_cols - 1)) := by
  have hform : O1_pro_round_5._normalize_row row target_cols =
      row.take (target_cols - 1) ++
        [joinSpace (row.drop (target_cols - 1))] := by
    unfold O1_pro_round_5._normalize_row
    rw [if_neg (by omega), if_pos h2]
  have hlen : (row.take (target_cols - 1)).length = target_cols - 1 := by
    rw [List.length_take]
    omega
  refine ⟨?_, ?_, ?_, substringsInOrder_joinSpace _⟩
  · rw [hform, List.length_append, hlen]
    simp
    omega
  · rw [hform, List.take_append_eq_append_take, hlen]
    simp [List.take_take]
  · rw [hform, List.getLast?_concat]

/-- Witness for claim C4 at `row = [a, bb, c]`, `target_cols = 2`. -/
theorem o1_pro_round_5_normalize_row_no_data_loss_witness :
    (O1_pro_round_5._normalize_row ["a".data, "bb".data, "c".data] 2).length =
      2 ∧
    (O1_pro_round_5._normalize_row ["a".data, "bb".data, "c".data] 2).take 1 =
      (["a".data, "bb".data, "c".data] : List Str).take 1 ∧
    (O1_pro_round_5._normalize_row
        ["a".data, "bb".data, "c".data] 2).getLast? =
      some (joinSpace ((["a".data, "bb".data, "c".data] : List Str).drop 1)) ∧
    substringsInOrder
      (joinSpace ((["a".data, "bb".data, "c".data] : List Str).drop 1))
      ((["a".data, "bb".data, "c".data] : List Str).drop 1) :=
  o1_pro_round_5_normalize_row_no_data_loss
    ["a".data, "bb".data, "c".data] 2 (by decide) (by decide)

theorem drop_length_takeWhile {α : Type} (p : α → Bool) (l : List α) :
    l.drop (l.takeWhile p).length = l.dropWhile p := by
  induction l with
  | nil => rfl
  | cons a t ih =>
      by_cases h : p a
      · simp [List.takeWhile_cons, List.dropWhile_cons, h, ih]
      · simp [List.takeWhile_cons, List.dropWhile_cons, h]

theorem takeWhile_append_all {α : Type} (p : α → Bool) (l1 l2 : List α)
    (h : ∀ x ∈ l1, p x = true) :
    (l1 ++ l2).takeWhile p = l1 ++ l2.takeWhile p := by
  induction l1 with
  | nil => rfl
  | cons a t ih =>
      simp [List.takeWhile_cons, h a (by simp),
        ih (fun x hx => h x (List.mem_cons_of_mem _ hx))]

theorem sepTail_decomp (t : Str)
    (h3 : 3 ≤ (t.takeWhile (fun c => c = '-')).length)
    (hrest : t.drop (t.takeWhile (fun c => c = '-')).length = [] ∨
        t.drop (t.takeWhile (fun c => c = '-')).length = [':']) :
    ∃ (r : Bool) (n : Nat), 3 ≤ n ∧
      t = List.replicate n '-' ++ (if r then [':'] else []) := by
  have hrep : t.takeWhile (fun c => c = '-') =
      List.replicate (t.takeWhile (fun c => c = '-')).length '-' := by
    apply List.eq_replicate_of_mem
    intro x hx
    have hpx := @List.mem_takeWhile_imp Char (fun c => decide (c = '-')) t x hx
    exact of_decide_eq_true hpx
  have key : t = List.replicate
      (t.takeWhile (fun c => c = '-')).length '-' ++
        t.drop (t.takeWhile (fun c => c = '-')).length := by
    conv_lhs => rw [← List.takeWhile_append_dropWhile
      (fun c => decide (c = '-')) t]
    rw [← drop_length_takeWhile (fun c => c = '-') t, ← hrep]
  obtain ⟨n, hn3, hkey⟩ : ∃ n, 3 ≤ n ∧ t = List.replicate n '-' ++
      t.drop (t.takeWhile (fun c => c = '-')).length := ⟨_, h3, key⟩
  rcases hrest with h | h
  · exact ⟨false, n, hn3, by rw [hkey, h]; simp⟩
  · exact ⟨true, n, hn3, by rw [hkey, h]; simp⟩

theorem sepCellCore_of_cs1 (s : Str) (n : Nat) (hn : 3 ≤ n) (r : Bool)
    (hcs1 : (if s.head? = some ':' then s.tail else s) =
        List.replicate n '-' ++ (if r then [':'] else [])) :
    sepCellCore s = true := by
  simp only [sepCellCore, hcs1]
  have htw : (List.replicate n '-' ++
      (if r then [':'] else [])).takeWhile (fun c => c = '-') =
      List.replicate n '-' := by
    rw [takeWhile_append_all _ _ _
      (fun x hx => by simp [List.eq_of_mem_replicate hx])]
    cases r <;> simp
  rw [htw, List.length_replicate]
  have hdrop : (List.replicate n '-' ++
      (if r then [':'] else [])).drop n = (if r then [':'] else []) := by
    exact List.drop_left' (by simp)
  rw [hdrop]
  cases r <;> simp [hn]

theorem sepCellCore_iff (s : Str) :
    sepCellCore s = true ↔
      ∃ (l r : Bool) (n : Nat), 3 ≤ n ∧
        s = (if l then [':'] else []) ++ List.replicate n '-' ++
          (if r then [':'] else []) := by
  constructor
  · intro h
    simp only [sepCellCore] at h
    generalize hcs1 : (if s.head? = some ':' then s.tail else s) = t at h
    rcases Bool.and_eq_true_iff.mp h with ⟨h3, hrest⟩
    have h3' : 3 ≤ (t.takeWhile (fun c => c = '-')).length :=
      of_decide_eq_true h3
    have hrest' : t.drop (t.takeWhile (fun c => c = '-')).length = [] ∨
        t.drop (t.takeWhile (fun c => c = '-')).length = [':'] := by
      rcases Bool.or_eq_true_iff.mp hrest with h' | h'
      · exact Or.inl (by simpa using h')
      · exact Or.inr (of_decide_eq_true h')
    obtain ⟨r, n, hn, ht⟩ := sepTail_decomp t h3' hrest'
    by_cases hh : s.head? = some ':'
    · refine ⟨true, r, n, hn, ?_⟩
      obtain ⟨a, t0, rfl⟩ : ∃ a t0, s = a :: t0 := by
        cases s with
        | nil => cases hh
        | cons a t0 => exact ⟨a, t0, rfl⟩
      have ha : a = ':' := by simpa using hh
      subst ha
      rw [if_pos hh] at hcs1
      simp only [List.tail_cons] at hcs1
      subst hcs1
      simp [ht]
    · refine ⟨false, r, n, hn, ?_⟩
      rw [if_neg hh] at hcs1
      subst hcs1
      simp [ht]
  · rintro ⟨l, r, n, hn, rfl⟩
    cases l with
    | true =>
        apply sepCellCore_of_cs1 _ n hn r
        simp
    | false =>
        apply sepCellCore_of_cs1 _ n hn r
        have hhead : (((if (false : Bool) then [':'] else []) ++
            List.replicate n '-' ++ (if r then [':'] else []))).head? =
            some '-' := by
          cases n with
          | zero => omega
          | succ m => simp [List.replicate_succ]
        rw [if_neg (by rw [hhead]; simp)]
        simp

/-- Claim C5, amended: `Grok3_round_5.is_separator_row cells` is true
iff every cell with non-empty stripped content matches the separator
pattern (optional colon, three or more hyphens, optional colon); in
particular a row composed entirely of empty cells is vacuously a
separator row (the original claim wrongly asserted it is not). -/
theorem grok3_round_5_is_separator_row_iff (cells : List Str) :
    Grok3_round_5.is_separator_row cells = true ↔
      ∀ c ∈ cells, pyStrip c ≠ [] → sepPattern c := by
  unfold Grok3_round_5.is_separator_row
  rw [List.all_eq_true]
  constructor
  · intro h c hc hne
    have hmem : c ∈ cells.filter (fun c => !(pyStrip c).isEmpty) := by
      rw [List.mem_filter]
      refine ⟨hc, ?_⟩
      simpa [List.isEmpty_iff] using hne
    have := h c hmem
    unfold Grok3_round_5.is_separator_cell at this
    exact (sepCellCore_iff (pyStrip c)).mp this
  · intro h c hc
    rw [List.mem_filter] at hc
    have hne : pyStrip c ≠ [] := by
      have := hc.2
      simpa [List.isEmpty_iff] using this
    unfold Grok3_round_5.is_separator_cell
    exact (sepCellCore_iff (pyStrip c)).mpr (h c hc.1 hne)

/-- Claim C6, amended: `O1_pro_round_5._detect_repeated_separators`
classifies the layout as repeated iff there are at least three merged
rows and the number of separator rows at odd indices is at least half
the number of odd indices below the row count — with no requirement of
two separator rows, and with the count of odd positions (not the count
of separator indices) as the reference total. -/
theorem o1_pro_round_5_detect_characterization (rows : List (List Str)) :
    O1_pro_round_5._detect_repeated_separators rows = true ↔
      3 ≤ rows.length ∧
      ((List.range rows.length).filter (fun i => i % 2 == 1)).length ≤
        2 * ((List.range rows.length).filter
          (fun i => O1_pro_round_5._is_separator_row (rows.getD i []) &&
            i % 2 == 1)).length := by
  unfold O1_pro_round_5._detect_repeated_separators
  by_cases h : rows.length < 3
  · simp [h]
  · rw [if_neg h]
    rw [← List.filter_filter]
    constructor
    · intro hd
      exact ⟨by omega, of_decide_eq_true hd⟩
    · rintro ⟨h1, h2⟩
      exact decide_eq_true h2

theorem intercalate_cons_ne {β : Type} (sep y : List β) (ys : List (List β))
    (h : ys ≠ []) :
    List.intercalate sep (y :: ys) = y ++ sep ++ List.intercalate sep ys := by
  cases ys with
  | nil => exact absurd rfl h
  | cons z zs => simp [List.intercalate, List.intersperse]

theorem intercalate_map_mem_decomp {α β : Type} (f : α → List β)
    (sep : List β) (l : List α) (a : α) (ha : a ∈ l) :
    ∃ pre post, List.intercalate sep (l.map f) = pre ++ f a ++ post := by
  induction l with
  | nil => cases ha
  | cons x xs ih =>
      rcases List.mem_cons.mp ha with rfl | ha
      · cases xs with
        | nil => exact ⟨[], [], by simp [List.intercalate]⟩
        | cons y ys =>
            refine ⟨[], sep ++ List.intercalate sep ((y :: ys).map f), ?_⟩
            rw [List.map_cons, intercalate_cons_ne _ _ _ (by simp)]
            simp
      · obtain ⟨pre, post, hdec⟩ := ih ha
        have hxs : xs ≠ [] := by
          intro h; rw [h] at ha; cases ha
        refine ⟨f x ++ sep ++ pre, post, ?_⟩
        rw [List.map_cons, intercalate_cons_ne _ _ _ (by simpa using hxs),
          hdec]
        simp

/-- Claim C9, amended: blank lines are not preserved by
`Grok3_round_1.fix_invalid_markdown_tables` (blocks are re-joined with
exactly one blank separator, dropping leading, trailing and repeated
blank lines — see the counterexample), and pipe-free lines inside a
block with at least three pipe lines are rewritten; what does hold is
that every blank-separated block with fewer than three pipe-containing
lines — in particular every block of pipe-free non-blank lines — appears
unchanged and contiguously in the output. -/
theorem grok3_round_1_small_blocks_verbatim (x : Str) (b : List Str)
    (hb : b ∈ Grok3_round_1.toBlocks (pySplitlines x))
    (hsmall : (b.filter hasPipe).length < 3) :
    ∃ pre post, Grok3_round_1.fixChars x = pre ++ joinLines b ++ post := by
  obtain ⟨pre, post, hdec⟩ :=
    intercalate_map_mem_decomp (fun b => joinLines (Grok3_round_1.processBlock b))
      ['\n', '\n'] (Grok3_round_1.toBlocks (pySplitlines x)) b hb
  refine ⟨pre, post, ?_⟩
  unfold Grok3_round_1.fixChars
  rw [hdec]
  unfold Grok3_round_1.processBlock
  rw [if_pos hsmall]

/-- Witness for the amended claim C9: the pipe-free block
`hello` / `world` appears contiguously in the output. -/
theorem grok3_round_1_small_blocks_verbatim_witness :
    ∃ pre post, Grok3_round_1.fixChars "hello\nworld".data =
      pre ++ joinLines ["hello".data, "world".data] ++ post :=
  grok3_round_1_small_blocks_verbatim "hello\nworld".data
    ["hello".data, "world".data] (by decide) (by decide)

/-- Every line emitted by the repeated-separator loop of
`Claude37_round_3.fix_invalid_table` is either the canonical separator
row (`max_cols` copies of `sep_style`) or a rebuilt non-separator data
row. -/
theorem c37r3_emitRepeated_mem (max_cols : Nat) (sep_style : Str)
    (style : Bool × Bool) (ps : List (List Str)) :
    ∀ x ∈ Claude37_round_3.emitRepeated max_cols sep_style style ps,
      x = Claude37_round_3.rebuild_row (List.replicate max_cols sep_style)
            style.1 style.2 ∨
      ∃ r ∈ ps, Claude37_round_3.is_separator_row r = false ∧
        x = Claude37_round_3.rebuild_row
              (Claude37_round_3.normalize_row r max_cols)
              style.1 style.2 := by
  induction ps with
  | nil => intro x hx; cases hx
  | cons r rs ih =>
      intro x hx
      by_cases hs : Claude37_round_3.is_separator_row r = true
      · simp only [Claude37_round_3.emitRepeated, hs, if_true] at hx
        rcases ih x hx with h | ⟨q, hq, hqs, hqx⟩
        · exact Or.inl h
        · exact Or.inr ⟨q, List.mem_cons_of_mem _ hq, hqs, hqx⟩
      · have hs' : Claude37_round_3.is_separator_row r = false :=
          Bool.eq_false_iff.mpr hs
        simp only [Claude37_round_3.emitRepeated, hs', Bool.false_eq_true,
          if_false] at hx
        rcases List.mem_cons.mp hx with hx0 | hx1
        · exact Or.inr ⟨r, List.mem_cons_self r rs, hs', hx0⟩
        · rcases List.mem_cons.mp hx1 with hx2 | hx3
          · exact Or.inl hx2
          · rcases ih x hx3 with h | ⟨q, hq, hqs, hqx⟩
            · exact Or.inl h
            · exact Or.inr ⟨q, List.mem_cons_of_mem _ hq, hqs, hqx⟩

/-- Claim C7, amended: every separator row inserted by
`Claude37_round_3.fix_invalid_table` consists of `max_cols` copies of
`get_separator_style(lines)`: the output line at index 1 is exactly that
row, and every later output line is either that same canonical separator
row or a rebuilt non-separator data row — so in the repeated layout each
separator inserted after a data row also equals it.  That style is `---`
when the block has no separator row, and otherwise it is the stripped
first non-empty cell of the first separator row — so alignment colons
from an original separator ARE reproduced, contrary to the original
claim. -/
theorem claude37_round_3_separator_style_amended :
    (∀ (l0 : Str) (ls : List Str),
      (Claude37_round_3.fix_invalid_table (l0 :: ls)).get? 1 =
        some (Claude37_round_3.rebuild_row
          (List.replicate
            ((((l0 :: ls).map Claude37_round_3.parse_table_row).map
              List.length).foldl max 0)
            (Claude37_round_3.get_separator_style (l0 :: ls)))
          (Claude37_round_3.get_table_style l0).1
          (Claude37_round_3.get_table_style l0).2) ∧
      ∀ x ∈ (Claude37_round_3.fix_invalid_table (l0 :: ls)).drop 1,
        x = Claude37_round_3.rebuild_row
              (List.replicate
                ((((l0 :: ls).map Claude37_round_3.parse_table_row).map
                  List.length).foldl max 0)
                (Claude37_round_3.get_separator_style (l0 :: ls)))
              (Claude37_round_3.get_table_style l0).1
              (Claude37_round_3.get_table_style l0).2 ∨
        ∃ r ∈ (l0 :: ls).map Claude37_round_3.parse_table_row,
          Claude37_round_3.is_separator_row r = false ∧
          x = Claude37_round_3.rebuild_row
                (Claude37_round_3.normalize_row r
                  ((((l0 :: ls).map Claude37_round_3.parse_table_row).map
                    List.length).foldl max 0))
                (Claude37_round_3.get_table_style l0).1
                (Claude37_round_3.get_table_style l0).2) ∧
    (∀ lines : List Str,
      (∀ x ∈ lines,
        Claude37_round_3.is_separator_row
          (Claude37_round_3.parse_table_row x) = false) →
      Claude37_round_3.get_separator_style lines = dashes3) ∧
    (∀ (pre : List Str) (l : Str) (post : List Str),
      (∀ x ∈ pre,
        Claude37_round_3.is_separator_row
          (Claude37_round_3.parse_table_row x) = false) →
      Claude37_round_3.is_separator_row
        (Claude37_round_3.parse_table_row l) = true →
      Claude37_round_3.get_separator_style (pre ++ l :: post) =
        (((Claude37_round_3.parse_table_row l).find?
            (fun c => !(pyStrip c).isEmpty)).map pyStrip).getD dashes3) := by
  refine ⟨?_, ?_, ?_⟩
  · intro l0 ls
    by_cases hp :
        Claude37_round_3.detect_has_separators_after_each_row (l0 :: ls)
    · refine ⟨by simp [Claude37_round_3.fix_invalid_table, hp], ?_⟩
      intro x hx
      have hfix : Claude37_round_3.fix_invalid_table (l0 :: ls) =
          Claude37_round_3.rebuild_row
            (Claude37_round_3.normalize_row
              (Claude37_round_3.parse_table_row l0)
              ((((l0 :: ls).map Claude37_round_3.parse_table_row).map
                List.length).foldl max 0))
            (Claude37_round_3.get_table_style l0).1
            (Claude37_round_3.get_table_style l0).2 ::
          Claude37_round_3.rebuild_row
            (List.replicate
              ((((l0 :: ls).map Claude37_round_3.parse_table_row).map
                List.length).foldl max 0)
              (Claude37_round_3.get_separator_style (l0 :: ls)))
            (Claude37_round_3.get_table_style l0).1
            (Claude37_round_3.get_table_style l0).2 ::
          Claude37_round_3.emitRepeated
            ((((l0 :: ls).map Claude37_round_3.parse_table_row).map
              List.length).foldl max 0)
            (Claude37_round_3.get_separator_style (l0 :: ls))
            (Claude37_round_3.get_table_style l0)
            (ls.map Claude37_round_3.parse_table_row) := by
        simp [Claude37_round_3.fix_invalid_table, hp]
      rw [hfix, List.drop_one, List.tail_cons] at hx
      rcases List.mem_cons.mp hx with hx0 | hx1
      · exact Or.inl hx0
      · rcases c37r3_emitRepeated_mem
            ((((l0 :: ls).map Claude37_round_3.parse_table_row).map
              List.length).foldl max 0)
            (Claude37_round_3.get_separator_style (l0 :: ls))
            (Claude37_round_3.get_table_style l0)
            (ls.map Claude37_round_3.parse_table_row) x hx1 with
          h | ⟨r, hr, hrs, hrx⟩
        · exact Or.inl h
        · refine Or.inr ⟨r, ?_, hrs, hrx⟩
          rw [List.map_cons]
          exact List.mem_cons_of_mem _ hr
    · refine ⟨by simp [Claude37_round_3.fix_invalid_table, hp], ?_⟩
      intro x hx
      have hfix : Claude37_round_3.fix_invalid_table (l0 :: ls) =
          Claude37_round_3.rebuild_row
            (Claude37_round_3.normalize_row
              (Claude37_round_3.parse_table_row l0)
              ((((l0 :: ls).map Claude37_round_3.parse_table_row).map
                List.length).foldl max 0))
            (Claude37_round_3.get_table_style l0).1
            (Claude37_round_3.get_table_style l0).2 ::
          Claude37_round_3.rebuild_row
            (List.replicate
              ((((l0 :: ls).map Claude37_round_3.parse_table_row).map
                List.length).foldl max 0)
              (Claude37_round_3.get_separator_style (l0 :: ls)))
            (Claude37_round_3.get_table_style l0).1
            (Claude37_round_3.get_table_style l0).2 ::
          (ls.map Claude37_round_3.parse_table_row).filterMap (fun r =>
            if Claude37_round_3.is_separator_row r then none
            else some (Claude37_round_3.rebuild_row
              (Claude37_round_3.normalize_row r
                ((((l0 :: ls).map Claude37_round_3.parse_table_row).map
                  List.length).foldl max 0))
              (Claude37_round_3.get_table_style l0).1
              (Claude37_round_3.get_table_style l0).2)) := by
        simp [Claude37_round_3.fix_invalid_table, hp]
      rw [hfix, List.drop_one, List.tail_cons] at hx
      rcases List.mem_cons.mp hx with hx0 | hx1
      · exact Or.inl hx0
      · rcases List.mem_filterMap.mp hx1 with ⟨r, hr, hfr⟩
        by_cases hs : Claude37_round_3.is_separator_row r = true
        · rw [if_pos hs] at hfr
          exact Option.noConfusion hfr
        · rw [if_neg hs] at hfr
          refine Or.inr ⟨r, ?_, Bool.eq_false_iff.mpr hs,
            (Option.some.inj hfr).symm⟩
          rw [List.map_cons]
          exact List.mem_cons_of_mem _ hr
  · intro lines h
    induction lines with
    | nil => rfl
    | cons x rest ih =>
        have hx := h x (by simp)
        simp only [Claude37_round_3.get_separator_style, hx,
          Bool.false_eq_true, if_false]
        exact ih (fun y hy => h y (List.mem_cons_of_mem _ hy))
  · intro pre l post hpre hl
    induction pre with
    | nil =>
        simp only [List.nil_append, Claude37_round_3.get_separator_style, hl,
          if_true]
        cases hf : (Claude37_round_3.parse_table_row l).find?
            (fun c => !(pyStrip c).isEmpty) with
        | none => simp
        | some cell => simp
    | cons x rest ih =>
        have hx := hpre x (by simp)
        simp only [List.cons_append, Claude37_round_3.get_separator_style,
          hx, Bool.false_eq_true, if_false]
        exact ih (fun y hy => hpre y (List.mem_cons_of_mem _ hy))

/-- Witness for the amended claim C7: concrete instances of its parts
(separator at output index 1; the characterization of a concrete later
output line; default style `---`; colon style `:---:` extracted from the
block's first separator row). -/
theorem claude37_round_3_separator_style_amended_witness :
    (Claude37_round_3.fix_invalid_table
        ["a|b".data, ":---:|:---:".data, "c|d|e".data]).get? 1 =
      some (Claude37_round_3.rebuild_row
        (List.replicate
          (((["a|b".data, ":---:|:---:".data, "c|d|e".data].map
            Claude37_round_3.parse_table_row).map List.length).foldl max 0)
          (Claude37_round_3.get_separator_style
            ["a|b".data, ":---:|:---:".data, "c|d|e".data]))
        (Claude37_round_3.get_table_style "a|b".data).1
        (Claude37_round_3.get_table_style "a|b".data).2) ∧
    (":---: | :---: | :---:".data =
        Claude37_round_3.rebuild_row
          (List.replicate
            (((["a|b".data, ":---:|:---:".data, "c|d|e".data].map
              Claude37_round_3.parse_table_row).map List.length).foldl max 0)
            (Claude37_round_3.get_separator_style
              ["a|b".data, ":---:|:---:".data, "c|d|e".data]))
          (Claude37_round_3.get_table_style "a|b".data).1
          (Claude37_round_3.get_table_style "a|b".data).2 ∨
      ∃ r ∈ ["a|b".data, ":---:|:---:".data, "c|d|e".data].map
          Claude37_round_3.parse_table_row,
        Claude37_round_3.is_separator_row r = false ∧
        ":---: | :---: | :---:".data =
          Claude37_round_3.rebuild_row
            (Claude37_round_3.normalize_row r
              (((["a|b".data, ":---:|:---:".data, "c|d|e".data].map
                Claude37_round_3.parse_table_row).map List.length).foldl
                max 0))
            (Claude37_round_3.get_table_style "a|b".data).1
            (Claude37_round_3.get_table_style "a|b".data).2) ∧
    Claude37_round_3.get_separator_style ["x|y".data] = dashes3 ∧
    Claude37_round_3.get_separator_style
        ["a|b".data, ":---:|:---:".data, "c|d|e".data] =
      ((( Claude37_round_3.parse_table_row ":---:|:---:".data).find?
          (fun c => !(pyStrip c).isEmpty)).map pyStrip).getD dashes3 := by
  refine ⟨?_, ?_, ?_, ?_⟩
  · exact (claude37_round_3_separator_style_amended.1 "a|b".data
      [":---:|:---:".data, "c|d|e".data]).1
  · exact (claude37_round_3_separator_style_amended.1 "a|b".data
      [":---:|:---:".data, "c|d|e".data]).2
      ":---: | :---: | :---:".data (by decide)
  · exact claude37_round_3_separator_style_amended.2.1 ["x|y".data]
      (by decide)
  · exact claude37_round_3_separator_style_amended.2.2 ["a|b".data]
      ":---:|:---:".data ["c|d|e".data] (by decide) (by decide)

theorem grok3r5_process_valid (bl : List Str)
    (h : Grok3_round_5.is_valid_table
      (Grok3_round_5.merge_continuation_lines bl) = true) :
    Grok3_round_5.process_table_block bl = bl := by
  simp only [Grok3_round_5.process_table_block]
  split
  · rfl
  · simp [h]

theorem grok3r5_fixGo_accum (bl : List Str)
    (hbl : ∀ l ∈ bl, hasPipe l = true) (hne : bl ≠ []) :
    ∀ (tb : List Str) (inT : Bool) (post : List Str),
      Grok3_round_5.fixGo tb inT (bl ++ post) =
        Grok3_round_5.fixGo (tb ++ bl) true post := by
  induction bl with
  | nil => exact absurd rfl hne
  | cons x bl' ih =>
      intro tb inT post
      have hx : hasPipe x = true := hbl x (by simp)
      simp only [List.cons_append, Grok3_round_5.fixGo, hx, if_true]
      cases bl' with
      | nil => simp
      | cons y t =>
          simp only [List.append_eq]
          rw [ih (fun l hl => hbl l (List.mem_cons_of_mem _ hl)) (by simp)]
          simp

theorem grok3r5_fixGo_flush (bl post : List Str)
    (hproc : Grok3_round_5.process_table_block bl = bl) (hne : bl ≠ [])
    (hpost : ∀ p, post.head? = some p → hasPipe p = false) :
    Grok3_round_5.fixGo bl true post = bl ++ Grok3_round_5.fixGo [] false post := by
  cases post with
  | nil =>
      show (if !bl.isEmpty then Grok3_round_5.process_table_block bl else []) =
        bl ++ Grok3_round_5.fixGo [] false []
      rw [if_pos (by simpa [List.isEmpty_iff] using hne), hproc]
      simp [Grok3_round_5.fixGo]
  | cons p ps =>
      have hp : hasPipe p = false := hpost p rfl
      simp only [Grok3_round_5.fixGo, hp, Bool.false_eq_true, if_false,
        if_true, hproc]

theorem grok3r5_fixGo_append (pre : List Str) (p : Str)
    (hp : hasPipe p = false) :
    ∀ (tb : List Str) (inT : Bool) (rest : List Str),
      (inT = false → tb = []) →
      Grok3_round_5.fixGo tb inT ((pre ++ [p]) ++ rest) =
        Grok3_round_5.fixGo tb inT (pre ++ [p]) ++
          Grok3_round_5.fixGo [] false rest := by
  induction pre with
  | nil =>
      intro tb inT rest hinv
      cases inT with
      | true =>
          simp only [List.nil_append, List.cons_append, Grok3_round_5.fixGo,
            hp, Bool.false_eq_true, if_false, if_true]
          simp [Grok3_round_5.fixGo]
      | false =>
          have htb : tb = [] := hinv rfl
          subst htb
          simp only [List.nil_append, List.cons_append, Grok3_round_5.fixGo,
            hp, Bool.false_eq_true, if_false]
          simp [Grok3_round_5.fixGo]
  | cons x pre' ih =>
      intro tb inT rest hinv
      cases hx : hasPipe x with
      | true =>
          simp only [List.cons_append, Grok3_round_5.fixGo, hx, if_true]
          exact ih (tb ++ [x]) true rest (by intro h; cases h)
      | false =>
          cases inT with
          | true =>
              simp only [List.cons_append, Grok3_round_5.fixGo, hx,
                Bool.false_eq_true, if_false, if_true, List.append_eq]
              rw [ih [] false rest (fun _ => rfl)]
              simp
          | false =>
              have htb : tb = [] := hinv rfl
              subst htb
              simp only [List.cons_append, Grok3_round_5.fixGo, hx,
                Bool.false_eq_true, if_false, List.append_eq]
              rw [ih [] false rest (fun _ => rfl)]

/-- Claim C1: under `Grok3_round_5.fix_invalid_markdown_tables`, a
maximal block of pipe-containing lines whose continuation-merged form
satisfies `is_valid_table` is emitted verbatim, in its original
position, with the surrounding document processed independently; in
particular a document that is a single well-formed table is returned
exactly equal to the input. -/
theorem grok3_round_5_valid_block_verbatim :
    (∀ pre bl post : List Str,
      bl ≠ [] →
      (∀ l ∈ bl, hasPipe l = true) →
      (pre = [] ∨ ∃ pre' p, pre = pre' ++ [p] ∧ hasPipe p = false) →
      (∀ p, post.head? = some p → hasPipe p = false) →
      Grok3_round_5.is_valid_table
          (Grok3_round_5.merge_continuation_lines bl) = true →
      Grok3_round_5.fixGo [] false (pre ++ (bl ++ post)) =
        Grok3_round_5.fixGo [] false pre ++ bl ++
          Grok3_round_5.fixGo [] false post) ∧
    (∀ bl : List Str,
      bl ≠ [] →
      (∀ l ∈ bl, hasPipe l = true) →
      (∀ l ∈ bl, ∀ c ∈ l, isLineBreak c = false) →
      Grok3_round_5.is_valid_table
          (Grok3_round_5.merge_continuation_lines bl) = true →
      Grok3_round_5.fix_invalid_markdown_tables (String.mk (joinLines bl)) =
        String.mk (joinLines bl)) := by
  have hmid : ∀ bl post : List Str,
      bl ≠ [] →
      (∀ l ∈ bl, hasPipe l = true) →
      (∀ p, post.head? = some p → hasPipe p = false) →
      Grok3_round_5.is_valid_table
          (Grok3_round_5.merge_continuation_lines bl) = true →
      Grok3_round_5.fixGo [] false (bl ++ post) =
        bl ++ Grok3_round_5.fixGo [] false post := by
    intro bl post hne hbl hpost hvalid
    rw [grok3r5_fixGo_accum bl hbl hne [] false post]
    exact grok3r5_fixGo_flush bl post (grok3r5_process_valid bl hvalid) hne
      hpost
  constructor
  · intro pre bl post hne hbl hpre hpost hvalid
    rcases hpre with rfl | ⟨pre', p, rfl, hp⟩
    · rw [List.nil_append]
      rw [hmid bl post hne hbl hpost hvalid]
      rfl
    · rw [grok3r5_fixGo_append pre' p hp [] false (bl ++ post)
        (fun _ => rfl)]
      rw [hmid bl post hne hbl hpost hvalid]
      simp
  · intro bl hne hbl hbf hvalid
    have hlast : ∀ t, bl.getLast? = some t → t ≠ [] := by
      intro t ht
      have hmem : t ∈ bl := by
        obtain ⟨hbl', rfl⟩ :=
          List.mem_getLast?_eq_getLast (show t ∈ bl.getLast? from ht)
        exact List.getLast_mem hbl'
      have := hbl t hmem
      intro hteq
      rw [hteq] at this
      cases this
    unfold Grok3_round_5.fix_invalid_markdown_tables Grok3_round_5.fixChars
    show String.mk (joinLines (Grok3_round_5.fixGo [] false
      (pySplitlines (joinLines bl)))) = _
    rw [pySplitlines_joinLines bl hne hbf hlast]
    have := hmid bl [] hne hbl (by intro p hp; cases hp) hvalid
    rw [List.append_nil] at this
    rw [this]
    simp [Grok3_round_5.fixGo]

/-- Witness for claim C1: a valid two-line table between a pipe-free
line above and below is emitted verbatim, and alone it is a fixed
point. -/
theorem grok3_round_5_valid_block_verbatim_witness :
    Grok3_round_5.fixGo [] false
        (["pre".data] ++ (["a|b".data, "---|---".data] ++ ["post".data])) =
      Grok3_round_5.fixGo [] false ["pre".data] ++
        ["a|b".data, "---|---".data] ++
          Grok3_round_5.fixGo [] false ["post".data] ∧
    Grok3_round_5.fix_invalid_markdown_tables
        (String.mk (joinLines ["a|b".data, "---|---".data])) =
      String.mk (joinLines ["a|b".data, "---|---".data]) := by
  constructor
  · exact grok3_round_5_valid_block_verbatim.1 ["pre".data]
      ["a|b".data, "---|---".data] ["post".data] (by decide) (by decide)
      (Or.inr ⟨[], "pre".data, rfl, by decide⟩) (by decide) (by decide)
  · exact grok3_round_5_valid_block_verbatim.2
      ["a|b".data, "---|---".data] (by decide) (by decide) (by decide)
      (by decide)

theorem c37r1_buildRows_sep_step (lines : List Str) (sepIdx : List Nat)
    (i : Nat) (rows : List (List Str)) (cur : List Str)
    (h : i < lines.length) (hsep : sepIdx.contains i = true) :
    Claude37_round_1.buildRows lines sepIdx i rows cur =
      Claude37_round_1.buildRows lines sepIdx (i + 1)
        ((if !cur.isEmpty then rows ++ [cur] else rows) ++
          [[lines.get ⟨i, h⟩]]) [] := by
  conv_lhs => rw [Claude37_round_1.buildRows]
  simp only [dif_pos h, hsep, if_true]

theorem c37r1_buildRows_last_step (lines : List Str) (sepIdx : List Nat)
    (i : Nat) (rows : List (List Str)) (cur : List Str)
    (h : ¬ i < lines.length) :
    Claude37_round_1.buildRows lines sepIdx i rows cur =
      if !cur.isEmpty then rows ++ [cur] else rows := by
  conv_lhs => rw [Claude37_round_1.buildRows]
  simp only [dif_neg h]

theorem c37r1_buildRows_rows_ne_nil (lines : List Str) (sepIdx : List Nat)
    (i : Nat) (rows : List (List Str)) (cur : List Str) :
    (∀ r ∈ rows, r ≠ []) →
    ∀ r ∈ Claude37_round_1.buildRows lines sepIdx i rows cur, r ≠ [] := by
  induction i, rows, cur using Claude37_round_1.buildRows.induct lines sepIdx with
  | case1 i rows cur h line hsep rows1 ih =>
      intro hrows
      rw [c37r1_buildRows_sep_step lines sepIdx i rows cur h hsep]
      refine ih ?_
      intro r hr
      rcases List.mem_append.mp hr with hr | hr
      · unfold rows1 at hr
        by_cases hc : (!cur.isEmpty) = true
        · rw [dif_pos hc] at hr
          rcases List.mem_append.mp hr with hr | hr
          · exact hrows r hr
          · rcases List.mem_singleton.mp hr with rfl
            simpa [List.isEmpty_iff] using hc
        · rw [dif_neg hc] at hr
          exact hrows r hr
      · rcases List.mem_singleton.mp hr with rfl
        simp
  | case2 i rows cur h line hsep rr jj hcond ih =>
      intro hrows
      rw [Claude37_round_1.buildRows]
      simp only [dif_pos h, hsep, Bool.false_eq_true, if_false]
      unfold jj rr line at hcond
      rw [if_pos hcond]
      refine ih ?_
      intro r hr
      rcases List.mem_append.mp hr with hr | hr
      · exact hrows r hr
      · rcases List.mem_singleton.mp hr with rfl
        simp
  | case3 i rows cur h line hsep rr jj hcond ih =>
      intro hrows
      rw [Claude37_round_1.buildRows]
      simp only [dif_pos h, hsep, Bool.false_eq_true, if_false]
      unfold jj rr line at hcond
      rw [if_neg hcond]
      exact ih hrows
  | case4 i rows cur h hc =>
      intro hrows
      rw [c37r1_buildRows_last_step lines sepIdx i rows cur h, if_pos hc]
      intro r hr
      rcases List.mem_append.mp hr with hr | hr
      · exact hrows r hr
      · rcases List.mem_singleton.mp hr with rfl
        simpa [List.isEmpty_iff] using hc
  | case5 i rows cur h hc =>
      intro hrows
      rw [c37r1_buildRows_last_step lines sepIdx i rows cur h, if_neg hc]
      exact hrows

theorem c37r1_findSepStyleIdx_isSome (rows : List (List Str))
    (hrows : ∀ r ∈ rows, r ≠ []) :
    ∀ i : Nat, ∃ v, Claude37_round_1.findSepStyleIdx rows i = some v ∧
      ∀ k, v = some k → i ≤ k ∧
        ∃ row, rows.get? (k - i) = some row ∧ row ≠ [] := by
  induction rows with
  | nil =>
      intro i
      exact ⟨none, rfl, by intro k hk; cases hk⟩
  | cons r rs ih =>
      intro i
      obtain ⟨c, t, rfl⟩ : ∃ c t, r = c :: t := by
        cases r with
        | nil => exact absurd rfl (hrows [] (by simp))
        | cons c t => exact ⟨c, t, rfl⟩
      by_cases hc : containsSeq c dashes3
      · refine ⟨some i, ?_, ?_⟩
        · simp [Claude37_round_1.findSepStyleIdx, hc]
        · intro k hk
          injection hk with hk
          subst hk
          exact ⟨le_refl _, (c :: t), by simp, by simp⟩
      · obtain ⟨v, hv, hvp⟩ :=
          ih (fun z hz => hrows z (List.mem_cons_of_mem _ hz)) (i + 1)
        refine ⟨v, ?_, ?_⟩
        · simp only [Claude37_round_1.findSepStyleIdx, List.head?_cons]
          rw [if_neg hc]
          exact hv
        · intro k hk
          obtain ⟨hik, row, hrow, hrne⟩ := hvp k hk
          refine ⟨by omega, row, ?_, hrne⟩
          have : k - i = (k - (i + 1)) + 1 := by omega
          rw [this]
          simpa using hrow

theorem mapM_option_isSome {α β : Type} (f : α → Option β) (l : List α)
    (h : ∀ x ∈ l, (f x).isSome = true) : ∃ ys, l.mapM f = some ys := by
  induction l with
  | nil => exact ⟨[], rfl⟩
  | cons x xs ih =>
      obtain ⟨y, hy⟩ := Option.isSome_iff_exists.mp (h x (by simp))
      obtain ⟨ys, hys⟩ := ih (fun z hz => h z (List.mem_cons_of_mem _ hz))
      refine ⟨y :: ys, ?_⟩
      rw [List.mapM_cons, hy, hys]
      rfl

theorem snd_mem_of_mem_enum {α : Type} {l : List α} {p : Nat × α}
    (hp : p ∈ l.enum) : p.2 ∈ l := by
  obtain ⟨i, x⟩ := p
  have := List.mk_mem_enum_iff_getElem?.mp hp
  obtain ⟨hlt, hget⟩ := List.getElem?_eq_some.mp this
  exact hget ▸ List.getElem_mem hlt

theorem fst_lt_of_mem_enum {α : Type} {l : List α} {p : Nat × α}
    (hp : p ∈ l.enum) : p.1 < l.length := by
  obtain ⟨i, x⟩ := p
  have := List.mk_mem_enum_iff_getElem?.mp hp
  obtain ⟨hlt, _⟩ := List.getElem?_eq_some.mp this
  exact hlt

theorem c37r1_fixComplexRows_isSome (rows : List (List Str))
    (hrows : ∀ r ∈ rows, r ≠ []) :
    (Claude37_round_1.fixComplexRows rows).isSome = true := by
  obtain ⟨v, hv, hvp⟩ := c37r1_findSepStyleIdx_isSome rows hrows 0
  unfold Claude37_round_1.fixComplexRows
  cases rows with
  | nil => rfl
  | cons r rs =>
      obtain ⟨c, t, rfl⟩ : ∃ c t, r = c :: t := by
        cases r with
        | nil => exact absurd rfl (hrows [] (by simp))
        | cons c t => exact ⟨c, t, rfl⟩
      simp only [List.head?_cons, Option.some_bind]
      rw [hv]
      cases v with
      | none => rfl
      | some k =>
          simp only [Option.bind_eq_bind, Option.some_bind]
          obtain ⟨hk0, row, hrow, hrowne⟩ := hvp k rfl
          simp only [Nat.sub_zero] at hrow
          obtain ⟨c2, t2, rfl⟩ : ∃ c2 t2, row = c2 :: t2 := by
            cases row with
            | nil => exact absurd rfl hrowne
            | cons c2 t2 => exact ⟨c2, t2, rfl⟩
          simp only [hrow, Option.some_bind, List.head?_cons,
            Option.bind_eq_bind]
          obtain ⟨ys, hys⟩ := mapM_option_isSome
            (fun p : Nat × List Str => p.2.head?)
            ((((c :: t) :: rs).enum).filter
              (fun p => decide (p.1 ≠ 0) && decide (p.1 ≠ k)))
            (by
              intro p hp
              have hmem : p.2 ∈ (c :: t) :: rs :=
                snd_mem_of_mem_enum (List.mem_of_mem_filter hp)
              have hne := hrows p.2 hmem
              cases hq : p.2 with
              | nil => exact absurd hq hne
              | cons a b => simp [hq])
          simp only [hys, Option.some_bind, Option.bind_eq_bind]
          rfl

theorem c37r1_sepIdx_lt {q : Nat × Str → Bool} (lines : List Str) :
    ∀ i ∈ (lines.enum.filter q).map Prod.fst, i < lines.length := by
  intro i hi
  obtain ⟨p, hp, rfl⟩ := List.mem_map.mp hi
  exact fst_lt_of_mem_enum (List.mem_of_mem_filter hp)

theorem c37r1_fixComplexSingle_isSome (b : Str) (lines : List Str)
    (sepIdx : List Nat) (hidx : ∀ i ∈ sepIdx, i < lines.length) :
    (Claude37_round_1.fixComplexSingle b lines sepIdx).isSome = true := by
  cases sepIdx with
  | nil => rfl
  | cons s0 stail =>
      have hs0 : s0 < lines.length := hidx s0 (by simp)
      have h00 : 0 < lines.length := by omega
      simp only [Claude37_round_1.fixComplexSingle]
      rw [List.get?_eq_get h00, List.get?_eq_get hs0]
      rfl

theorem c37r1_fix_complex_isSome (b : Str) :
    (Claude37_round_1.fix_complex_table b).isSome = true := by
  simp only [Claude37_round_1.fix_complex_table]
  split
  · unfold Claude37_round_1.fixComplexMulti
    exact c37r1_fixComplexRows_isSome _
      (c37r1_buildRows_rows_ne_nil _ _ 0 [] []
        (by intro r hr; cases hr))
  · exact c37r1_fixComplexSingle_isSome b _ _ (c37r1_sepIdx_lt _)

theorem option_bind_isSome {α β : Type} (x : Option α) (f : α → Option β)
    (hx : x.isSome = true) (hf : ∀ a, (f a).isSome = true) :
    (x.bind f).isSome = true := by
  cases x with
  | none => cases hx
  | some a => simpa using hf a

theorem c37r1_dataRows_ne_nil (l0 : Str) (lt : List Str)
    (sepIdx : List Nat) (hc0 : sepIdx.contains 0 = false) :
    ∃ dr, (((l0 :: lt).enum.filter
      (fun p => !sepIdx.contains p.1)).map Prod.snd) = l0 :: dr := by
  have h0m : ¬ (0 : Nat) ∈ sepIdx := by
    intro hm
    have hct : sepIdx.contains 0 = true := by simpa using hm
    rw [hc0] at hct
    cases hct
  refine ⟨(((List.enumFrom 1 lt).filter
    (fun p => !sepIdx.contains p.1)).map Prod.snd), ?_⟩
  rw [List.enum_cons, List.filter_cons]
  simp [h0m]

theorem c37r1_fixTableCore_isSome (b : Str) (lines : List Str)
    (sepIdx : List Nat) (hidx : ∀ i ∈ sepIdx, i < lines.length)
    (h0 : ∀ i ∈ sepIdx, 0 < i) :
    (Claude37_round_1.fixTableCore b lines sepIdx).isSome = true := by
  cases sepIdx with
  | nil => rfl
  | cons s0 stail =>
      have hs0 : s0 < lines.length := hidx s0 (by simp)
      obtain ⟨l0, lt, rfl⟩ : ∃ l0 lt, lines = l0 :: lt := by
        cases lines with
        | nil => exact absurd hs0 (by simp)
        | cons l0 lt => exact ⟨l0, lt, rfl⟩
      have hc0 : ((s0 :: stail).contains 0) = false := by
        cases hcc : (s0 :: stail).contains 0 with
        | false => rfl
        | true =>
            have hmem : (0 : Nat) ∈ s0 :: stail := by simpa using hcc
            have := h0 0 hmem
            omega
      simp only [Claude37_round_1.fixTableCore, Option.bind_eq_bind]
      split
      · apply option_bind_isSome
        · rw [List.get?_eq_get hs0]
          rfl
        · intro first_separator
          obtain ⟨dr, hdr⟩ := c37r1_dataRows_ne_nil l0 lt (s0 :: stail) hc0
          rw [hdr]
          simp only [Option.some_bind]
          split
          · rfl
          · exact c37r1_fix_complex_isSome b
      · simp only [Option.some_bind]
        split
        · rfl
        · exact c37r1_fix_complex_isSome b

theorem c37r1_fix_table_isSome (b : Str) :
    (Claude37_round_1.fix_table b).isSome = true := by
  simp only [Claude37_round_1.fix_table]
  apply c37r1_fixTableCore_isSome
  · exact c37r1_sepIdx_lt _
  · intro i hi
    obtain ⟨p, hp, rfl⟩ := List.mem_map.mp hi
    have hpred := List.of_mem_filter hp
    exact of_decide_eq_true (Bool.and_eq_true_iff.mp hpred).1

/-- Claim C3: `Claude37_round_1.fix_invalid_markdown_tables` is total:
on every input string it returns a result; in the embedding every
unguarded partial operation (list subscripts such as `data_rows[0]`,
`rows[0][0]` and `lines[separator_indices[0]]`, and `max` over a
possibly-empty sequence) is modelled in the `Option` monad, and the
`none` branch is proved unreachable for every input. -/
theorem claude37_round_1_total (s : String) :
    (Claude37_round_1.fix_invalid_markdown_tables s).isSome = true := by
  unfold Claude37_round_1.fix_invalid_markdown_tables
  rw [Option.isSome_map']
  unfold Claude37_round_1.fixChars
  rw [Option.isSome_map']
  obtain ⟨ys, hys⟩ := mapM_option_isSome
    (fun block =>
      if hasPipe block &&
          ((Claude37_round_1.splitOnNl block).filter hasPipe).any
            (fun l => l.contains '-') then
        Claude37_round_1.fix_table block
      else some block)
    (Claude37_round_1.splitBlank s.data)
    (by
      intro block hb
      dsimp only
      split
      · exact c37r1_fix_table_isSome block
      · rfl)
  rw [hys]
  rfl
